import Mathlib

/-!
Band widths of corner operator trees and the complex operator application (MRCPP).

A shallow embedding of

* `CornerOperatorTree::calcBandWidth` and `CornerOperatorTree::isOutsideBand`
  (`src/trees/CornerOperatorTree.cpp`), and
* the complex version of `apply` (`src/treebuilders/complex_apply.cpp`).

Conventions of the embedding.

* A C++ `double` is a rational number (`ℚ`): the code only compares norms with a
  threshold and divides the precision by ten, both of which are order preserving. The
  quotient `prec / 10.0` is taken exactly; its rounding to a `double`, which can matter
  only for a norm equal to the rounded threshold, is not modelled.
* A C++ `int` is an `Int`; the results of the arithmetic the code performs on `int`
  (`1 << depth`, `- 1`, `--l`, `abs`) are reduced to the 32-bit two's complement range
  by `wrapInt32`.
* The constant `MachinePrec` is declared outside the files at hand; it is a parameter.
* The mutable object state is passed explicitly; the calls the routine makes to the tree
  (`findNode`) and to the table (`setWidth`) are recorded, in order, in a trace.
-/

namespace MRCPP

/-! ## Machine integers -/

/-- Reduction of an integer to the range of a 32-bit two's complement `int`. -/
def wrapInt32 (x : Int) : Int := (x + 2147483648) % 4294967296 - 2147483648

/-- The C++ expression `1 << depth` on `int`. -/
def shiftLeftOne (depth : Nat) : Int := wrapInt32 (2 ^ depth)

/-- The C++ expression `(1 << depth) - 1` on `int`: the farthest translation of a depth. -/
def maxTransl (depth : Nat) : Int := wrapInt32 (shiftLeftOne depth - 1)

/-- The C++ expression `abs(x)` on `int`. -/
def absInt32 (x : Int) : Int := wrapInt32 |x|

/-! ## The band-width table -/

/-- Modelled from the spec: the class `BandWidth` (`BandWidth.h` is not among the sources).
The spec describes a compact per-depth width table holding, for each depth and each of the
four matrix components, one width, and reporting `-1` where no width has been recorded.
`depth` is the number of depths the table was created for. -/
structure BandWidth where
  depth : Nat
  widths : Nat → Nat → Int

namespace BandWidth

/-- Modelled from the spec: the table made by `new BandWidth(depth)`, no width recorded. -/
def create (depth : Nat) : BandWidth := ⟨depth, fun _ _ => -1⟩

/-- Modelled from the spec: `setWidth(depth, index, wd)` stores `wd` for one depth and one
component and leaves every other entry as it was. -/
def setWidth (bw : BandWidth) (depth index : Nat) (wd : Int) : BandWidth :=
  ⟨bw.depth, fun d k => if d = depth ∧ k = index then wd else bw.widths d k⟩

/-- Modelled from the spec: `getWidth(depth, index)` reads the stored width. -/
def getWidth (bw : BandWidth) (depth index : Nat) : Int := bw.widths depth index

/-- Modelled from the spec: `getMaxWidth(depth)`, the largest width recorded over the four
components of a depth, `-1` when none is recorded. -/
def getMaxWidth (bw : BandWidth) (depth : Nat) : Int :=
  max (max (bw.widths depth 0) (bw.widths depth 1))
    (max (bw.widths depth 2) (bw.widths depth 3))

end BandWidth

/-! ## Operator trees -/

/-- The part of `MWNode<2>` that `calcBandWidth` reads: `getComponentNorm(k)`. -/
structure OperatorNode where
  getComponentNorm : Nat → ℚ

/-- The part of a `CornerOperatorTree` object that the two routines use: `getDepth()`,
the stored `normPrec`, the node index behind `findNode(NodeIndex<2>(n, {l0, l1}))`
(`none` is the null pointer) and the pointer `bandWidth` (`none` is `nullptr`). -/
structure CornerOperatorTree where
  getDepth : Nat
  normPrec : ℚ
  findNode : Nat → Int → Int → Option OperatorNode
  bandWidth : Option BandWidth

/-- Modelled from the spec: `clearBandWidth()` (defined in `OperatorTree.cpp`, not among
the sources) deallocates the width table, leaving the tree without one. -/
def CornerOperatorTree.clearBandWidth (T : CornerOperatorTree) : CornerOperatorTree :=
  { T with bandWidth := none }

/-- One call made by `calcBandWidth`, as recorded in the trace. -/
inductive Event where
  | lookup (depth : Nat) (l : Int)
  | setWidth (depth : Nat) (k : Nat) (wd : Int)
  deriving DecidableEq, Repr

/-- The state threaded through `calcBandWidth`: the table being filled and the calls made
so far, oldest first. -/
structure ScanState where
  bandWidth : BandWidth
  trace : List Event

/-- The call `this->bandWidth->setWidth(depth, k, wd)`. -/
def ScanState.setWidth (s : ScanState) (depth k : Nat) (wd : Int) : ScanState :=
  ⟨s.bandWidth.setWidth depth k wd, s.trace ++ [Event.setWidth depth k wd]⟩

/-- The call `findNode(NodeIndex<2>(depth, {l, 0}))`, recorded in the trace. -/
def ScanState.lookup (s : ScanState) (depth : Nat) (l : Int) : ScanState :=
  ⟨s.bandWidth, s.trace ++ [Event.lookup depth l]⟩

/-- One round of the loop `for (int k = 1; k < 4; k++)`: the pair is the state and the
flag `done`. -/
def componentStep (node : Option OperatorNode) (thrs : ℚ) (depth : Nat) (l : Int)
    (acc : ScanState × Bool) (k : Nat) : ScanState × Bool :=
  match node with
  | some nd => if nd.getComponentNorm k > thrs then (acc.1.setWidth depth k l, false) else acc
  | none => acc

/-- The body of the `while` loop up to the decrement of `l`: `done = true`, the node
lookup, and the loop over the components 1, 2, 3. -/
def scanBody (T : CornerOperatorTree) (thrs : ℚ) (depth : Nat) (l : Int) (s : ScanState) :
    ScanState × Bool :=
  [1, 2, 3].foldl (componentStep (T.findNode depth l 0) thrs depth l) (s.lookup depth l, true)

/-- The loop `while (not done) { ... if (--l < 0) break; }` of `calcBandWidth`. -/
def scanLoop (T : CornerOperatorTree) (thrs : ℚ) (depth : Nat) (l : Int) (s : ScanState) :
    ScanState :=
  if wrapInt32 (l - 1) < 0 then (scanBody T thrs depth l s).1
  else if (scanBody T thrs depth l s).2 then (scanBody T thrs depth l s).1
  else scanLoop T thrs depth (wrapInt32 (l - 1)) (scanBody T thrs depth l s).1
termination_by (if 0 ≤ l ∧ l < 2147483648 then l.toNat else 2147483648)
decreasing_by
  simp only [wrapInt32] at *
  split_ifs <;> omega

/-- The body of the loop `for (int depth = 0; depth < this->getDepth(); depth++)`. -/
def depthPass (T : CornerOperatorTree) (thrs : ℚ) (s : ScanState) (depth : Nat) : ScanState :=
  scanLoop T thrs depth (maxTransl depth) (s.setWidth depth 0 (maxTransl depth))

/-- The threshold `thrs` of `calcBandWidth(prec)`. -/
def threshold (MachinePrec : ℚ) (T : CornerOperatorTree) (prec : ℚ) : ℚ :=
  max MachinePrec ((if prec < 0 then T.normPrec else prec) / 10)

/-- The run of `calcBandWidth(prec)` on the fresh table `new BandWidth(getDepth())`: the
table as the loop over the depths leaves it and the calls made. (The routine also fills a
local vector with `getMaxTranslations` and prints the table; neither touches the table or
the tree.) -/
def calcBandWidthRun (MachinePrec : ℚ) (T : CornerOperatorTree) (prec : ℚ) : ScanState :=
  (List.range T.getDepth).foldl (depthPass T (threshold MachinePrec T prec))
    ⟨BandWidth.create T.getDepth, []⟩

/-- The method `CornerOperatorTree::calcBandWidth(prec)`: the tree afterwards. -/
def calcBandWidth (MachinePrec : ℚ) (T : CornerOperatorTree) (prec : ℚ) : CornerOperatorTree :=
  let T1 := if T.bandWidth.isNone then T.clearBandWidth else T
  { T1 with bandWidth := some (calcBandWidthRun MachinePrec T1 prec).bandWidth }

/-- What a call can do as far as the caller can tell: return a value, report a failure
(an exception, an abort, a failed assertion), or run into behaviour the language leaves
undefined. -/
inductive Outcome (α : Type) where
  | returned (a : α)
  | failed
  | undefinedBehaviour
  deriving DecidableEq, Repr

/-- The method `CornerOperatorTree::isOutsideBand(oTransl, o_depth, idx)`. Its body is the
single statement `return abs(oTransl) < this->bandWidth->getWidth(o_depth, idx);`: there is
no test of the pointer, no assertion and no `throw`, so the call never reports a failure;
on a tree without a table the null pointer is dereferenced. -/
def isOutsideBand (T : CornerOperatorTree) (oTransl : Int) (o_depth idx : Nat) :
    Outcome Bool :=
  match T.bandWidth with
  | some bw => Outcome.returned (decide (absInt32 oTransl < bw.getWidth o_depth idx))
  | none => Outcome.undefinedBehaviour

/-! ## Vocabulary for the statements about the scan -/

/-- The node `(depth, (l, 0))` exists and its norm for component `k` is above `thrs`:
the test `(node != nullptr) && (node->getComponentNorm(k) > thrs)`. -/
def exceeds (T : CornerOperatorTree) (thrs : ℚ) (depth : Nat) (l : Int) (k : Nat) : Bool :=
  match T.findNode depth l 0 with
  | some nd => decide (nd.getComponentNorm k > thrs)
  | none => false

/-- Some component among 1, 2, 3 of the node `(depth, (l, 0))` is above `thrs`. -/
def active (T : CornerOperatorTree) (thrs : ℚ) (depth : Nat) (l : Int) : Bool :=
  exceeds T thrs depth l 1 || exceeds T thrs depth l 2 || exceeds T thrs depth l 3

/-- The translations `hi, hi - 1, ..., lo`, in that order. -/
def countDown (hi lo : Int) : List Int :=
  (List.range (hi - lo + 1).toNat).map (fun (i : Nat) => hi - (i : Int))

/-- The translations at which the trace records a node lookup at `depth`, in order. -/
def lookupsAt (depth : Nat) (tr : List Event) : List Int :=
  tr.filterMap (fun e =>
    match e with
    | Event.lookup d l => if d = depth then some l else none
    | Event.setWidth _ _ _ => none)

/-- The point where the scan of a depth stops, as a property of `m`: either `m = -1` and
every translation `0..hi` has a component above the threshold, or `m` is the largest
translation in `0..hi` at which the node is absent or no component 1..3 is above it. -/
def IsStopPoint (T : CornerOperatorTree) (thrs : ℚ) (depth : Nat) (hi m : Int) : Prop :=
  (m = -1 ∧ ∀ l : Int, 0 ≤ l → l ≤ hi → active T thrs depth l = true) ∨
  (0 ≤ m ∧ m ≤ hi ∧ active T thrs depth m = false ∧
    ∀ l : Int, m < l → l ≤ hi → active T thrs depth l = true)

/-- The translations the loop visits when it is entered with `l = n`, for `n ≥ 0`. -/
def visited (T : CornerOperatorTree) (thrs : ℚ) (depth : Nat) : Nat → List Int
  | 0 => [0]
  | n + 1 => ((n + 1 : Nat) : Int) ::
      (if active T thrs depth ((n + 1 : Nat) : Int) then visited T thrs depth n else [])

/-- The translations the scan of `depth` visits. -/
def levelVisits (T : CornerOperatorTree) (thrs : ℚ) (depth : Nat) : List Int :=
  if 0 ≤ maxTransl depth then visited T thrs depth (maxTransl depth).toNat
  else [maxTransl depth]

/-- The loop body applied along a list of translations. -/
def visitAll (T : CornerOperatorTree) (thrs : ℚ) (depth : Nat) (ls : List Int)
    (s : ScanState) : ScanState :=
  ls.foldl (fun st l => (scanBody T thrs depth l st).1) s

/-- The calls made by one round of the loop body at translation `l`. -/
def visitEvents (T : CornerOperatorTree) (thrs : ℚ) (depth : Nat) (l : Int) : List Event :=
  Event.lookup depth l ::
    ([1, 2, 3].filter (fun k => exceeds T thrs depth l k)).map
      (fun k => Event.setWidth depth k l)

/-- The calls made by the scan of one depth. -/
def levelEvents (T : CornerOperatorTree) (thrs : ℚ) (depth : Nat) : List Event :=
  Event.setWidth depth 0 (maxTransl depth) ::
    (levelVisits T thrs depth).flatMap (visitEvents T thrs depth)

/-- The state after the scans of the depths `0, ..., n - 1`. -/
def scanDepths (T : CornerOperatorTree) (thrs : ℚ) (n : Nat) : ScanState :=
  (List.range n).foldl (depthPass T thrs) ⟨BandWidth.create T.getDepth, []⟩

/-! ## The complex operator application -/

/-- An object with a real and an imaginary part (`ComplexObject<T>`). -/
structure ComplexObject (α : Type) where
  real : α
  imaginary : α

/-- The operations the complex `apply` takes as given; their definitions are outside the
files at hand. `newTree mra` is the constructor `FunctionTree<D>(mra)`, which makes a tree
with an empty grid; `getMRA` reads the analysis of a tree; `apply prec out oper inp maxIter
absPrec` is the real `apply`, returning the tree `out` as the call leaves it (it starts
from the grid it finds in `out`; `oper` and `inp` are its input parameters); `add prec out
inps` is `add(prec, out, inps)`, returning `out` as the call leaves it. -/
structure RealOps (MRA Tree Oper : Type) where
  newTree : MRA → Tree
  getMRA : Tree → MRA
  apply : ℚ → Tree → Oper → Tree → Int → Bool → Tree
  add : ℚ → Tree → List (ℚ × Tree) → Tree

/-- One call of the real `apply`, with the arguments it receives. -/
structure ApplyCall (Tree Oper : Type) where
  prec : ℚ
  out : Tree
  oper : Oper
  inp : Tree
  maxIter : Int
  absPrec : Bool

/-- The tree a call of the real `apply` leaves in its `out` argument. -/
def ApplyCall.result {MRA Tree Oper : Type} (ops : RealOps MRA Tree Oper)
    (c : ApplyCall Tree Oper) : Tree :=
  ops.apply c.prec c.out c.oper c.inp c.maxIter c.absPrec

/-- The state after the complex `apply`: the three objects passed by reference and the
calls of the real `apply` it made, in order. -/
structure ComplexApplyResult (Tree Oper : Type) where
  out : ComplexObject Tree
  oper : ComplexObject Oper
  inp : ComplexObject Tree
  calls : List (ApplyCall Tree Oper)

/-- The complex version of `apply(prec, out, oper, inp, maxIter, absPrec)`, statement by
statement: the two temporaries, two real applies, the sum for the real part, two more real
applies into the same temporaries, the sum for the imaginary part. -/
def complexApply {MRA Tree Oper : Type} (ops : RealOps MRA Tree Oper) (prec : ℚ)
    (out : ComplexObject Tree) (oper : ComplexObject Oper) (inp : ComplexObject Tree)
    (maxIter : Int) (absPrec : Bool) : ComplexApplyResult Tree Oper :=
  let temp1 := ops.newTree (ops.getMRA inp.real)
  let temp2 := ops.newTree (ops.getMRA inp.real)
  let call1 : ApplyCall Tree Oper := ⟨prec, temp1, oper.real, inp.real, maxIter, absPrec⟩
  let temp1 := call1.result ops
  let call2 : ApplyCall Tree Oper :=
    ⟨prec, temp2, oper.imaginary, inp.imaginary, maxIter, absPrec⟩
  let temp2 := call2.result ops
  let outReal := ops.add prec out.real [(1, temp1), (-1, temp2)]
  let call3 : ApplyCall Tree Oper := ⟨prec, temp1, oper.imaginary, inp.real, maxIter, absPrec⟩
  let temp1 := call3.result ops
  let call4 : ApplyCall Tree Oper := ⟨prec, temp2, oper.real, inp.imaginary, maxIter, absPrec⟩
  let temp2 := call4.result ops
  let outImaginary := ops.add prec out.imaginary [(1, temp1), (1, temp2)]
  ⟨⟨outReal, outImaginary⟩, oper, inp, [call1, call2, call3, call4]⟩

/-! ## Concrete data -/

/-- A node with the given norms for the components 1, 2 and 3. -/
def nodeOf (a b c : ℚ) : OperatorNode :=
  ⟨fun k => if k = 1 then a else if k = 2 then b else if k = 3 then c else 0⟩

/-- A tree of depth three without a table: the root, its four children, and the four
children of the node `(1, (0, 0))`. At depth 1 the node at translation `(1, 0)` has norm 1
for component 1 and the node at `(0, 0)` has norm 1/20 for it. At depth 2 the node at
`(0, 0)` has norm 1 for component 2, and there is no node at the translations `(2, 0)` and
`(3, 0)`. All other norms vanish. -/
def sampleTree : CornerOperatorTree where
  getDepth := 3
  normPrec := 1 / 1000
  findNode := fun d l0 l1 =>
    if d = 0 ∧ l0 = 0 ∧ l1 = 0 then some (nodeOf 0 0 0)
    else if d = 1 ∧ l0 = 1 ∧ l1 = 0 then some (nodeOf 1 0 0)
    else if d = 1 ∧ l0 = 0 ∧ l1 = 0 then some (nodeOf (1 / 20) 0 0)
    else if d = 1 ∧ (l0 = 0 ∨ l0 = 1) ∧ l1 = 1 then some (nodeOf 0 0 0)
    else if d = 2 ∧ l0 = 0 ∧ l1 = 0 then some (nodeOf 0 1 0)
    else if d = 2 ∧ (l0 = 0 ∨ l0 = 1) ∧ (l1 = 0 ∨ l1 = 1) then some (nodeOf 0 0 0)
    else none
  bandWidth := none

/-- The machine precision used with `sampleTree`. -/
def sampleMachinePrec : ℚ := 1 / 1000000

/-- A small instance of the given operations: a tree is the list of the coefficients it
holds, the real apply appends the input scaled by the operator to what the output tree
holds, and `add` appends the linear combination to what its output holds. -/
def listOps : RealOps Unit (List ℚ) ℚ where
  newTree := fun _ => []
  getMRA := fun _ => ()
  apply := fun _ out oper inp _ _ => out ++ inp.map (fun c => oper * c)
  add := fun _ out inps => out ++ inps.flatMap (fun p => p.2.map (fun c => p.1 * c))

/-! ## Machine integers: facts -/

theorem wrapInt32_of_range (x : Int) (h1 : -2147483648 ≤ x) (h2 : x < 2147483648) :
    wrapInt32 x = x := by
  unfold wrapInt32; omega

theorem two_pow_le_of_le (d : Nat) (h : d ≤ 30) : (2 : Int) ^ d ≤ 1073741824 := by
  have h1 : (2 : Int) ^ d ≤ 2 ^ 30 := pow_le_pow_right₀ (by norm_num) h
  norm_num at h1
  exact h1

theorem two_pow_pos_int (d : Nat) : (0 : Int) < 2 ^ d := by positivity

theorem maxTransl_of_le (d : Nat) (h : d ≤ 30) : maxTransl d = 2 ^ d - 1 := by
  have h1 := two_pow_le_of_le d h
  have h2 := two_pow_pos_int d
  unfold maxTransl shiftLeftOne
  rw [wrapInt32_of_range (2 ^ d) (by omega) (by omega)]
  exact wrapInt32_of_range _ (by omega) (by omega)

theorem maxTransl_range (d : Nat) : -1 ≤ maxTransl d ∧ maxTransl d < 2147483648 := by
  rcases Nat.lt_or_ge d 31 with h | h
  · rw [maxTransl_of_le d (by omega)]
    have h1 := two_pow_le_of_le d (by omega)
    have h2 := two_pow_pos_int d
    constructor <;> omega
  · rcases Nat.lt_or_ge d 32 with h3 | h3
    · have : d = 31 := by omega
      subst this
      unfold maxTransl shiftLeftOne wrapInt32
      norm_num
    · obtain ⟨e, rfl⟩ : ∃ e, d = 32 + e := ⟨d - 32, by omega⟩
      have h4 : (2 : Int) ^ (32 + e) = 4294967296 * 2 ^ e := by
        rw [pow_add]; norm_num
      unfold maxTransl shiftLeftOne wrapInt32
      rw [h4]
      generalize (2 : Int) ^ e = y
      omega

/-! ## The loop body -/

theorem scanBody_done (T : CornerOperatorTree) (thrs : ℚ) (d : Nat) (l : Int) (s : ScanState) :
    (scanBody T thrs d l s).2 = !active T thrs d l := by
  unfold scanBody active exceeds componentStep
  cases T.findNode d l 0 with
  | none => simp
  | some nd =>
    simp only [List.foldl]
    by_cases h1 : nd.getComponentNorm 1 > thrs <;> by_cases h2 : nd.getComponentNorm 2 > thrs <;>
      by_cases h3 : nd.getComponentNorm 3 > thrs <;> simp [h1, h2, h3]

theorem scanBody_trace (T : CornerOperatorTree) (thrs : ℚ) (d : Nat) (l : Int) (s : ScanState) :
    (scanBody T thrs d l s).1.trace = s.trace ++ visitEvents T thrs d l := by
  unfold scanBody visitEvents exceeds componentStep
  cases T.findNode d l 0 with
  | none => simp [ScanState.lookup]
  | some nd =>
    simp only [List.foldl]
    by_cases h1 : nd.getComponentNorm 1 > thrs <;> by_cases h2 : nd.getComponentNorm 2 > thrs <;>
      by_cases h3 : nd.getComponentNorm 3 > thrs <;>
      simp [h1, h2, h3, ScanState.lookup, ScanState.setWidth, List.filter]

theorem scanBody_widths (T : CornerOperatorTree) (thrs : ℚ) (d : Nat) (l : Int) (s : ScanState)
    (d' k : Nat) :
    (scanBody T thrs d l s).1.bandWidth.widths d' k =
      if d' = d ∧ (k = 1 ∨ k = 2 ∨ k = 3) ∧ exceeds T thrs d l k = true then l
      else s.bandWidth.widths d' k := by
  unfold scanBody exceeds componentStep
  cases T.findNode d l 0 with
  | none => simp [ScanState.lookup]
  | some nd =>
    simp only [List.foldl]
    by_cases h1 : nd.getComponentNorm 1 > thrs <;> by_cases h2 : nd.getComponentNorm 2 > thrs <;>
      by_cases h3 : nd.getComponentNorm 3 > thrs <;>
      simp only [h1, h2, h3, ScanState.lookup, ScanState.setWidth, BandWidth.setWidth, if_true,
        if_false, decide_True, decide_False] <;>
      by_cases hd : d' = d <;> by_cases k1 : k = 1 <;> by_cases k2 : k = 2 <;>
      by_cases k3 : k = 3 <;> simp_all [not_lt_of_ge]

theorem scanBody_depth (T : CornerOperatorTree) (thrs : ℚ) (d : Nat) (l : Int) (s : ScanState) :
    (scanBody T thrs d l s).1.bandWidth.depth = s.bandWidth.depth := by
  unfold scanBody componentStep
  cases T.findNode d l 0 with
  | none => simp [ScanState.lookup]
  | some nd =>
    simp only [List.foldl]
    by_cases h1 : nd.getComponentNorm 1 > thrs <;> by_cases h2 : nd.getComponentNorm 2 > thrs <;>
      by_cases h3 : nd.getComponentNorm 3 > thrs <;>
      simp [h1, h2, h3, ScanState.lookup, ScanState.setWidth, BandWidth.setWidth]


/-! ## The loop body along a list of translations -/

theorem visitAll_nil (T : CornerOperatorTree) (thrs : ℚ) (d : Nat) (s : ScanState) :
    visitAll T thrs d [] s = s := rfl

theorem visitAll_cons (T : CornerOperatorTree) (thrs : ℚ) (d : Nat) (l : Int) (ls : List Int)
    (s : ScanState) :
    visitAll T thrs d (l :: ls) s = visitAll T thrs d ls (scanBody T thrs d l s).1 := rfl

theorem visitAll_trace (T : CornerOperatorTree) (thrs : ℚ) (d : Nat) (ls : List Int) :
    ∀ s : ScanState,
      (visitAll T thrs d ls s).trace = s.trace ++ ls.flatMap (visitEvents T thrs d) := by
  induction ls with
  | nil => intro s; simp [visitAll_nil]
  | cons l ls ih =>
    intro s
    rw [visitAll_cons, ih, scanBody_trace]
    simp

theorem visitAll_depth (T : CornerOperatorTree) (thrs : ℚ) (d : Nat) (ls : List Int) :
    ∀ s : ScanState, (visitAll T thrs d ls s).bandWidth.depth = s.bandWidth.depth := by
  induction ls with
  | nil => intro s; rfl
  | cons l ls ih => intro s; rw [visitAll_cons, ih, scanBody_depth]

theorem visitAll_widths_frame (T : CornerOperatorTree) (thrs : ℚ) (d : Nat) (ls : List Int)
    (d' k : Nat) (h : d' ≠ d ∨ ¬ (k = 1 ∨ k = 2 ∨ k = 3)) :
    ∀ s : ScanState,
      (visitAll T thrs d ls s).bandWidth.widths d' k = s.bandWidth.widths d' k := by
  induction ls with
  | nil => intro s; rfl
  | cons l ls ih =>
    intro s
    rw [visitAll_cons, ih, scanBody_widths]
    rcases h with h | h
    · simp [h]
    · simp [h]

theorem visitAll_widths_of_no_hit (T : CornerOperatorTree) (thrs : ℚ) (d : Nat) (k : Nat)
    (ls : List Int) (h : ∀ j ∈ ls, exceeds T thrs d j k = false) :
    ∀ s : ScanState,
      (visitAll T thrs d ls s).bandWidth.widths d k = s.bandWidth.widths d k := by
  induction ls with
  | nil => intro s; rfl
  | cons l ls ih =>
    intro s
    rw [visitAll_cons, ih (fun j hj => h j (List.mem_cons_of_mem _ hj)), scanBody_widths]
    simp [h l (List.mem_cons_self _ _)]

theorem visitAll_widths_of_hit (T : CornerOperatorTree) (thrs : ℚ) (d : Nat) (k : Nat)
    (hk : k = 1 ∨ k = 2 ∨ k = 3) (ls : List Int) (hs : ls.Pairwise (fun a b => b < a))
    (h : ∃ j ∈ ls, exceeds T thrs d j k = true) :
    ∀ s : ScanState,
      (visitAll T thrs d ls s).bandWidth.widths d k ∈ ls ∧
      exceeds T thrs d ((visitAll T thrs d ls s).bandWidth.widths d k) k = true ∧
      ∀ j ∈ ls, exceeds T thrs d j k = true →
        (visitAll T thrs d ls s).bandWidth.widths d k ≤ j := by
  induction ls with
  | nil => obtain ⟨j, hj, _⟩ := h; cases hj
  | cons l ls ih =>
    intro s
    rw [visitAll_cons]
    rw [List.pairwise_cons] at hs
    by_cases hex : ∃ j ∈ ls, exceeds T thrs d j k = true
    · obtain ⟨h1, h2, h3⟩ := ih hs.2 hex (scanBody T thrs d l s).1
      refine ⟨List.mem_cons_of_mem _ h1, h2, ?_⟩
      intro j hj hje
      rcases List.mem_cons.mp hj with rfl | hj
      · exact le_of_lt (hs.1 _ h1)
      · exact h3 j hj hje
    · have hno : ∀ j ∈ ls, exceeds T thrs d j k = false := by
        intro j hj
        by_contra hc
        exact hex ⟨j, hj, by simpa using hc⟩
      have hl : exceeds T thrs d l k = true := by
        obtain ⟨j, hj, hje⟩ := h
        rcases List.mem_cons.mp hj with rfl | hj
        · exact hje
        · rw [hno j hj] at hje; cases hje
      rw [visitAll_widths_of_no_hit T thrs d k ls hno, scanBody_widths]
      simp only [hk, hl, and_self, if_true, true_and]
      refine ⟨List.mem_cons_self _ _, ?_⟩
      intro j hj hje
      rcases List.mem_cons.mp hj with rfl | hj
      · exact le_refl _
      · rw [hno j hj] at hje; cases hje

theorem visitAll_widths_mem (T : CornerOperatorTree) (thrs : ℚ) (d : Nat) (k : Nat)
    (ls : List Int) :
    ∀ s : ScanState,
      (visitAll T thrs d ls s).bandWidth.widths d k = s.bandWidth.widths d k ∨
      (visitAll T thrs d ls s).bandWidth.widths d k ∈ ls := by
  induction ls with
  | nil => intro s; exact Or.inl rfl
  | cons l ls ih =>
    intro s
    rw [visitAll_cons]
    rcases ih (scanBody T thrs d l s).1 with h | h
    · rw [h, scanBody_widths]
      split_ifs
      · exact Or.inr (List.mem_cons_self _ _)
      · exact Or.inl rfl
    · exact Or.inr (List.mem_cons_of_mem _ h)

/-! ## The translations the loop visits -/

theorem scanLoop_natCast (T : CornerOperatorTree) (thrs : ℚ) (d : Nat) (n : Nat)
    (hn : (n : Int) < 2147483648) :
    ∀ s : ScanState,
      scanLoop T thrs d (n : Int) s = visitAll T thrs d (visited T thrs d n) s := by
  induction n with
  | zero =>
    intro s
    rw [scanLoop]
    have h : wrapInt32 (((0 : Nat) : Int) - 1) < 0 := by unfold wrapInt32; norm_num
    rw [if_pos h]
    rfl
  | succ n ih =>
    intro s
    rw [scanLoop]
    have h1 : wrapInt32 (((n + 1 : Nat) : Int) - 1) = (n : Int) := by
      rw [wrapInt32_of_range] <;> push_cast <;> omega
    have h2 : ¬ (n : Int) < 0 := by omega
    rw [h1, if_neg h2, scanBody_done]
    unfold visited
    by_cases ha : active T thrs d ((n + 1 : Nat) : Int) = true
    · simp only [ha, Bool.not_true, if_true]
      rw [visitAll_cons, ← ih (by push_cast at hn; omega)]
      simp
    · simp only [Bool.not_eq_true] at ha
      simp only [ha, Bool.not_false, if_true]
      simp [visitAll_cons, visitAll_nil]

theorem scanLoop_neg_one (T : CornerOperatorTree) (thrs : ℚ) (d : Nat) (s : ScanState) :
    scanLoop T thrs d (-1) s = visitAll T thrs d [-1] s := by
  rw [scanLoop]
  have h : wrapInt32 (-1 - 1) < 0 := by unfold wrapInt32; norm_num
  rw [if_pos h]
  rfl

theorem scanLoop_maxTransl (T : CornerOperatorTree) (thrs : ℚ) (d : Nat) (s : ScanState) :
    scanLoop T thrs d (maxTransl d) s = visitAll T thrs d (levelVisits T thrs d) s := by
  obtain ⟨h1, h2⟩ := maxTransl_range d
  unfold levelVisits
  by_cases h : 0 ≤ maxTransl d
  · rw [if_pos h]
    have h3 : ((maxTransl d).toNat : Int) = maxTransl d := Int.toNat_of_nonneg h
    have h4 := scanLoop_natCast T thrs d (maxTransl d).toNat (by omega) s
    rw [h3] at h4
    exact h4
  · rw [if_neg h]
    have h3 : maxTransl d = -1 := by omega
    rw [h3]
    exact scanLoop_neg_one T thrs d s

theorem depthPass_eq (T : CornerOperatorTree) (thrs : ℚ) (s : ScanState) (d : Nat) :
    depthPass T thrs s d =
      visitAll T thrs d (levelVisits T thrs d) (s.setWidth d 0 (maxTransl d)) := by
  unfold depthPass
  exact scanLoop_maxTransl T thrs d _

theorem visited_mem_bounds (T : CornerOperatorTree) (thrs : ℚ) (d : Nat) (n : Nat) :
    ∀ j ∈ visited T thrs d n, 0 ≤ j ∧ j ≤ (n : Int) := by
  induction n with
  | zero => intro j hj; simp [visited] at hj; subst hj; simp
  | succ n ih =>
    intro j hj
    unfold visited at hj
    rcases List.mem_cons.mp hj with rfl | hj
    · constructor <;> omega
    · split_ifs at hj
      · have := ih j hj
        push_cast
        constructor <;> omega
      · cases hj

theorem visited_pairwise (T : CornerOperatorTree) (thrs : ℚ) (d : Nat) (n : Nat) :
    (visited T thrs d n).Pairwise (fun a b => b < a) := by
  induction n with
  | zero => simp [visited]
  | succ n ih =>
    unfold visited
    rw [List.pairwise_cons]
    split_ifs
    · refine ⟨?_, ih⟩
      intro j hj
      have := visited_mem_bounds T thrs d n j hj
      push_cast
      omega
    · simp

theorem visited_length (T : CornerOperatorTree) (thrs : ℚ) (d : Nat) (n : Nat) :
    (visited T thrs d n).length ≤ n + 1 := by
  induction n with
  | zero => simp [visited]
  | succ n ih =>
    unfold visited
    split_ifs
    · simp only [List.length_cons]; omega
    · simp

theorem countDown_self (n : Int) : countDown n n = [n] := by
  unfold countDown
  simp [List.range_succ]

theorem countDown_succ (n lo : Int) (h : lo ≤ n) :
    countDown (n + 1) lo = (n + 1) :: countDown n lo := by
  unfold countDown
  have h1 : (n + 1 - lo + 1).toNat = (n - lo + 1).toNat + 1 := by omega
  rw [h1, List.range_succ_eq_map]
  simp only [List.map_cons, List.map_map]
  congr 1
  · simp
  · apply List.map_congr_left
    intro i _
    simp only [Function.comp]
    push_cast
    omega

theorem visited_eq_countDown (T : CornerOperatorTree) (thrs : ℚ) (d : Nat) (n : Nat) :
    ∀ m : Int, IsStopPoint T thrs d (n : Int) m →
      visited T thrs d n = countDown (n : Int) (max m 0) := by
  induction n with
  | zero =>
    intro m hm
    have h0 : max m 0 = 0 := by
      rcases hm with ⟨h, _⟩ | ⟨h1, h2, _⟩
      · subst h; rfl
      · have : m = 0 := by push_cast at h2; omega
        subst this; rfl
    rw [h0]
    simp [visited, countDown, List.range_succ]
  | succ n ih =>
    intro m hm
    unfold visited
    by_cases ha : active T thrs d ((n + 1 : Nat) : Int) = true
    · rw [if_pos ha]
      have hm' : IsStopPoint T thrs d (n : Int) m := by
        rcases hm with ⟨h, hall⟩ | ⟨h1, h2, h3, hall⟩
        · exact Or.inl ⟨h, fun l hl0 hl => hall l hl0 (by push_cast; omega)⟩
        · have hne : m ≠ ((n + 1 : Nat) : Int) := by
            intro he; rw [he, ha] at h3; cases h3
          refine Or.inr ⟨h1, by push_cast at h2 hne; omega, h3, ?_⟩
          intro l hl1 hl2
          exact hall l hl1 (by push_cast; omega)
      rw [ih m hm']
      have hle : max m 0 ≤ (n : Int) := by
        rcases hm' with ⟨h, _⟩ | ⟨h1, h2, _⟩
        · subst h; simp
        · simp [h2]
      have := countDown_succ (n : Int) (max m 0) hle
      push_cast
      rw [this]
    · rw [if_neg ha]
      have hm1 : m = ((n + 1 : Nat) : Int) := by
        rcases hm with ⟨h, hall⟩ | ⟨h1, h2, h3, hall⟩
        · exact absurd (hall _ (by omega) (le_refl _)) ha
        · by_contra hne
          exact ha (hall _ (by omega) (le_refl _))
      have h0 : max m 0 = ((n + 1 : Nat) : Int) := by
        rw [hm1]; apply max_eq_left; omega
      rw [h0, countDown_self]


theorem levelVisits_pairwise (T : CornerOperatorTree) (thrs : ℚ) (d : Nat) :
    (levelVisits T thrs d).Pairwise (fun a b => b < a) := by
  unfold levelVisits
  split_ifs
  · exact visited_pairwise T thrs d _
  · simp

theorem levelVisits_mem_le (T : CornerOperatorTree) (thrs : ℚ) (d : Nat) (j : Int)
    (hj : j ∈ levelVisits T thrs d) : -1 ≤ j ∧ j ≤ maxTransl d := by
  have hr := maxTransl_range d
  unfold levelVisits at hj
  split_ifs at hj with h
  · have := visited_mem_bounds T thrs d _ j hj
    rw [Int.toNat_of_nonneg h] at this
    constructor <;> omega
  · simp at hj
    subst hj
    exact ⟨hr.1, le_refl _⟩

theorem levelVisits_of_le (T : CornerOperatorTree) (thrs : ℚ) (d : Nat) (hd : d ≤ 30) :
    levelVisits T thrs d = visited T thrs d (2 ^ d - 1) := by
  have h1 := maxTransl_of_le d hd
  have h2 : (1 : Nat) ≤ 2 ^ d := Nat.one_le_two_pow
  have h3 : maxTransl d = ((2 ^ d - 1 : Nat) : Int) := by
    rw [h1]; push_cast [h2]; rfl
  unfold levelVisits
  rw [if_pos (by rw [h3]; omega), h3, Int.toNat_ofNat]

theorem levelVisits_mem_bounds (T : CornerOperatorTree) (thrs : ℚ) (d : Nat) (hd : d ≤ 30)
    (j : Int) (hj : j ∈ levelVisits T thrs d) : 0 ≤ j ∧ j ≤ 2 ^ d - 1 := by
  rw [levelVisits_of_le T thrs d hd] at hj
  have h2 : (1 : Nat) ≤ 2 ^ d := Nat.one_le_two_pow
  have := visited_mem_bounds T thrs d _ j hj
  push_cast [h2] at this
  exact this

theorem levelVisits_length (T : CornerOperatorTree) (thrs : ℚ) (d : Nat) (hd : d ≤ 30) :
    (levelVisits T thrs d).length ≤ 2 ^ d := by
  rw [levelVisits_of_le T thrs d hd]
  have h2 : (1 : Nat) ≤ 2 ^ d := Nat.one_le_two_pow
  have := visited_length T thrs d (2 ^ d - 1)
  omega

theorem levelVisits_eq_countDown (T : CornerOperatorTree) (thrs : ℚ) (d : Nat) (hd : d ≤ 30)
    (m : Int) (hm : IsStopPoint T thrs d (2 ^ d - 1) m) :
    levelVisits T thrs d = countDown (2 ^ d - 1) (max m 0) := by
  rw [levelVisits_of_le T thrs d hd]
  have h2 : (1 : Nat) ≤ 2 ^ d := Nat.one_le_two_pow
  have h3 : ((2 ^ d - 1 : Nat) : Int) = 2 ^ d - 1 := by push_cast [h2]; rfl
  have := visited_eq_countDown T thrs d (2 ^ d - 1) m (by rw [h3]; exact hm)
  rw [h3] at this
  exact this

theorem mem_countDown (hi lo j : Int) : j ∈ countDown hi lo ↔ lo ≤ j ∧ j ≤ hi := by
  unfold countDown
  simp only [List.mem_map, List.mem_range]
  constructor
  · rintro ⟨i, hi1, rfl⟩
    constructor <;> omega
  · rintro ⟨h1, h2⟩
    exact ⟨(hi - j).toNat, by omega, by omega⟩

/-! ## Lowering the threshold -/

theorem exceeds_mono (T : CornerOperatorTree) (t1 t2 : ℚ) (h : t2 ≤ t1) (d : Nat) (l : Int)
    (k : Nat) (he : exceeds T t1 d l k = true) : exceeds T t2 d l k = true := by
  unfold exceeds at *
  cases hf : T.findNode d l 0 with
  | none => rw [hf] at he; cases he
  | some nd =>
    rw [hf] at he
    simp only [gt_iff_lt, decide_eq_true_eq] at *
    exact lt_of_le_of_lt h he

theorem active_mono (T : CornerOperatorTree) (t1 t2 : ℚ) (h : t2 ≤ t1) (d : Nat) (l : Int)
    (he : active T t1 d l = true) : active T t2 d l = true := by
  unfold active at *
  simp only [Bool.or_eq_true] at *
  rcases he with (he | he) | he
  · exact Or.inl (Or.inl (exceeds_mono T t1 t2 h d l 1 he))
  · exact Or.inl (Or.inr (exceeds_mono T t1 t2 h d l 2 he))
  · exact Or.inr (exceeds_mono T t1 t2 h d l 3 he)

theorem visited_mono (T : CornerOperatorTree) (t1 t2 : ℚ) (h : t2 ≤ t1) (d : Nat) (n : Nat) :
    ∀ j ∈ visited T t1 d n, j ∈ visited T t2 d n := by
  induction n with
  | zero => intro j hj; simpa [visited] using hj
  | succ n ih =>
    intro j hj
    unfold visited at hj ⊢
    rcases List.mem_cons.mp hj with rfl | hj
    · exact List.mem_cons_self _ _
    · split_ifs at hj with ha
      · rw [if_pos (active_mono T t1 t2 h d _ ha)]
        exact List.mem_cons_of_mem _ (ih j hj)
      · cases hj

theorem levelVisits_mono (T : CornerOperatorTree) (t1 t2 : ℚ) (h : t2 ≤ t1) (d : Nat) :
    ∀ j ∈ levelVisits T t1 d, j ∈ levelVisits T t2 d := by
  intro j hj
  unfold levelVisits at *
  split_ifs at hj ⊢
  · exact visited_mono T t1 t2 h d _ j hj
  · exact hj

theorem threshold_mono (mp : ℚ) (T : CornerOperatorTree) (p1 p2 : ℚ) (h12 : p2 < p1)
    (h2 : 0 < p2) : threshold mp T p2 ≤ threshold mp T p1 := by
  unfold threshold
  rw [if_neg (not_lt.mpr (le_of_lt h2)), if_neg (not_lt.mpr (le_of_lt (lt_trans h2 h12)))]
  apply max_le_max (le_refl _)
  apply div_le_div_of_nonneg_right (le_of_lt h12)
  norm_num

/-! ## One depth -/

theorem depthPass_trace (T : CornerOperatorTree) (thrs : ℚ) (s : ScanState) (d : Nat) :
    (depthPass T thrs s d).trace = s.trace ++ levelEvents T thrs d := by
  rw [depthPass_eq, visitAll_trace]
  simp [ScanState.setWidth, levelEvents]

theorem depthPass_depth (T : CornerOperatorTree) (thrs : ℚ) (s : ScanState) (d : Nat) :
    (depthPass T thrs s d).bandWidth.depth = s.bandWidth.depth := by
  rw [depthPass_eq, visitAll_depth]
  rfl

theorem depthPass_widths_other (T : CornerOperatorTree) (thrs : ℚ) (s : ScanState) (d : Nat)
    (d' k : Nat) (h : d' ≠ d) :
    (depthPass T thrs s d).bandWidth.widths d' k = s.bandWidth.widths d' k := by
  rw [depthPass_eq, visitAll_widths_frame T thrs d _ d' k (Or.inl h)]
  simp [ScanState.setWidth, BandWidth.setWidth, h]

theorem depthPass_widths_zero (T : CornerOperatorTree) (thrs : ℚ) (s : ScanState) (d : Nat) :
    (depthPass T thrs s d).bandWidth.widths d 0 = maxTransl d := by
  rw [depthPass_eq, visitAll_widths_frame T thrs d _ d 0 (Or.inr (by omega))]
  simp [ScanState.setWidth, BandWidth.setWidth]

theorem depthPass_widths_of_no_hit (T : CornerOperatorTree) (thrs : ℚ) (s : ScanState)
    (d k : Nat) (hk : k ≠ 0) (h : ∀ j ∈ levelVisits T thrs d, exceeds T thrs d j k = false) :
    (depthPass T thrs s d).bandWidth.widths d k = s.bandWidth.widths d k := by
  rw [depthPass_eq, visitAll_widths_of_no_hit T thrs d k _ h]
  simp [ScanState.setWidth, BandWidth.setWidth, hk]

theorem depthPass_widths_of_hit (T : CornerOperatorTree) (thrs : ℚ) (s : ScanState)
    (d k : Nat) (hk : k = 1 ∨ k = 2 ∨ k = 3)
    (h : ∃ j ∈ levelVisits T thrs d, exceeds T thrs d j k = true) :
    (depthPass T thrs s d).bandWidth.widths d k ∈ levelVisits T thrs d ∧
    exceeds T thrs d ((depthPass T thrs s d).bandWidth.widths d k) k = true ∧
    ∀ j ∈ levelVisits T thrs d, exceeds T thrs d j k = true →
      (depthPass T thrs s d).bandWidth.widths d k ≤ j := by
  rw [depthPass_eq]
  exact visitAll_widths_of_hit T thrs d k hk _ (levelVisits_pairwise T thrs d) h _

/-! ## All depths -/

theorem scanDepths_succ (T : CornerOperatorTree) (thrs : ℚ) (n : Nat) :
    scanDepths T thrs (n + 1) = depthPass T thrs (scanDepths T thrs n) n := by
  unfold scanDepths
  rw [List.range_succ, List.foldl_append]
  rfl

theorem calcBandWidthRun_eq (mp : ℚ) (T : CornerOperatorTree) (prec : ℚ) :
    calcBandWidthRun mp T prec = scanDepths T (threshold mp T prec) T.getDepth := rfl

theorem scanDepths_trace (T : CornerOperatorTree) (thrs : ℚ) (n : Nat) :
    (scanDepths T thrs n).trace = (List.range n).flatMap (levelEvents T thrs) := by
  induction n with
  | zero => rfl
  | succ n ih =>
    rw [scanDepths_succ, depthPass_trace, ih, List.range_succ, List.flatMap_append]
    simp

theorem scanDepths_depth (T : CornerOperatorTree) (thrs : ℚ) (n : Nat) :
    (scanDepths T thrs n).bandWidth.depth = T.getDepth := by
  induction n with
  | zero => rfl
  | succ n ih => rw [scanDepths_succ, depthPass_depth, ih]

theorem scanDepths_widths_ge (T : CornerOperatorTree) (thrs : ℚ) (n : Nat) (d k : Nat)
    (h : n ≤ d) : (scanDepths T thrs n).bandWidth.widths d k = -1 := by
  induction n with
  | zero => rfl
  | succ n ih =>
    rw [scanDepths_succ, depthPass_widths_other T thrs _ n d k (by omega)]
    exact ih (by omega)

theorem scanDepths_widths_eq (T : CornerOperatorTree) (thrs : ℚ) (n : Nat) (d k : Nat)
    (h : d < n) :
    (scanDepths T thrs n).bandWidth.widths d k =
      (depthPass T thrs (scanDepths T thrs d) d).bandWidth.widths d k := by
  induction n with
  | zero => omega
  | succ n ih =>
    rw [scanDepths_succ]
    rcases Nat.lt_or_ge d n with h1 | h1
    · rw [depthPass_widths_other T thrs _ n d k (by omega)]
      exact ih h1
    · have : d = n := by omega
      subst this
      rfl

theorem scanDepths_widths_zero (T : CornerOperatorTree) (thrs : ℚ) (n : Nat) (d : Nat)
    (h : d < n) : (scanDepths T thrs n).bandWidth.widths d 0 = maxTransl d := by
  rw [scanDepths_widths_eq T thrs n d 0 h, depthPass_widths_zero]

theorem scanDepths_widths_of_no_hit (T : CornerOperatorTree) (thrs : ℚ) (n : Nat) (d k : Nat)
    (h : d < n) (hk : k ≠ 0)
    (hno : ∀ j ∈ levelVisits T thrs d, exceeds T thrs d j k = false) :
    (scanDepths T thrs n).bandWidth.widths d k = -1 := by
  rw [scanDepths_widths_eq T thrs n d k h, depthPass_widths_of_no_hit T thrs _ d k hk hno]
  exact scanDepths_widths_ge T thrs d d k (le_refl _)

theorem scanDepths_widths_of_hit (T : CornerOperatorTree) (thrs : ℚ) (n : Nat) (d k : Nat)
    (h : d < n) (hk : k = 1 ∨ k = 2 ∨ k = 3)
    (hex : ∃ j ∈ levelVisits T thrs d, exceeds T thrs d j k = true) :
    (scanDepths T thrs n).bandWidth.widths d k ∈ levelVisits T thrs d ∧
    exceeds T thrs d ((scanDepths T thrs n).bandWidth.widths d k) k = true ∧
    ∀ j ∈ levelVisits T thrs d, exceeds T thrs d j k = true →
      (scanDepths T thrs n).bandWidth.widths d k ≤ j := by
  rw [scanDepths_widths_eq T thrs n d k h]
  exact depthPass_widths_of_hit T thrs _ d k hk hex

theorem scanDepths_widths_le (T : CornerOperatorTree) (thrs : ℚ) (n : Nat) (d k : Nat)
    (h : d < n) : (scanDepths T thrs n).bandWidth.widths d k ≤ maxTransl d := by
  rw [scanDepths_widths_eq T thrs n d k h, depthPass_eq]
  rcases visitAll_widths_mem T thrs d k (levelVisits T thrs d)
    ((scanDepths T thrs d).setWidth d 0 (maxTransl d)) with h1 | h1
  · rw [h1]
    simp only [ScanState.setWidth, BandWidth.setWidth]
    split_ifs
    · exact le_refl _
    · rw [scanDepths_widths_ge T thrs d d k (le_refl _)]
      exact (maxTransl_range d).1
  · exact (levelVisits_mem_le T thrs d _ h1).2

/-! ## The trace -/

theorem mem_visitEvents_lookup (T : CornerOperatorTree) (thrs : ℚ) (d : Nat) (l : Int)
    (d' : Nat) (j : Int) :
    Event.lookup d' j ∈ visitEvents T thrs d l ↔ d' = d ∧ j = l := by
  unfold visitEvents
  simp

theorem mem_visitEvents_setWidth (T : CornerOperatorTree) (thrs : ℚ) (d : Nat) (l : Int)
    (d' k : Nat) (w : Int) :
    Event.setWidth d' k w ∈ visitEvents T thrs d l ↔
      d' = d ∧ (k = 1 ∨ k = 2 ∨ k = 3) ∧ w = l ∧ exceeds T thrs d l k = true := by
  unfold visitEvents
  rw [List.mem_cons]
  simp only [List.mem_map, List.mem_filter]
  constructor
  · rintro (h | ⟨a, ⟨ha, he⟩, heq⟩)
    · cases h
    · injection heq with h1 h2 h3
      subst h1 h2 h3
      simp only [List.mem_cons, List.not_mem_nil, or_false] at ha
      exact ⟨rfl, ha, rfl, he⟩
  · rintro ⟨rfl, hk, rfl, he⟩
    exact Or.inr ⟨k, ⟨by simpa using hk, he⟩, rfl⟩

theorem mem_levelEvents_lookup (T : CornerOperatorTree) (thrs : ℚ) (d d' : Nat) (j : Int) :
    Event.lookup d' j ∈ levelEvents T thrs d ↔ d' = d ∧ j ∈ levelVisits T thrs d := by
  unfold levelEvents
  rw [List.mem_cons, List.mem_flatMap]
  constructor
  · rintro (h | ⟨l, hl, hm⟩)
    · cases h
    · obtain ⟨rfl, rfl⟩ := (mem_visitEvents_lookup T thrs d l d' j).mp hm
      exact ⟨rfl, hl⟩
  · rintro ⟨rfl, hj⟩
    exact Or.inr ⟨j, hj, (mem_visitEvents_lookup T thrs d' j d' j).mpr ⟨rfl, rfl⟩⟩

theorem mem_levelEvents_setWidth (T : CornerOperatorTree) (thrs : ℚ) (d d' k : Nat) (w : Int) :
    Event.setWidth d' k w ∈ levelEvents T thrs d ↔
      d' = d ∧ ((k = 0 ∧ w = maxTransl d) ∨
        ((k = 1 ∨ k = 2 ∨ k = 3) ∧ w ∈ levelVisits T thrs d ∧
          exceeds T thrs d w k = true)) := by
  unfold levelEvents
  rw [List.mem_cons, List.mem_flatMap]
  constructor
  · rintro (h | ⟨l, hl, hm⟩)
    · injection h with h1 h2 h3
      exact ⟨h1, Or.inl ⟨h2, h3⟩⟩
    · obtain ⟨rfl, hk, rfl, he⟩ := (mem_visitEvents_setWidth T thrs d l d' k w).mp hm
      exact ⟨rfl, Or.inr ⟨hk, hl, he⟩⟩
  · rintro ⟨rfl, (⟨rfl, rfl⟩ | ⟨hk, hl, he⟩)⟩
    · exact Or.inl rfl
    · exact Or.inr ⟨w, hl, (mem_visitEvents_setWidth T thrs d' w d' k w).mpr ⟨rfl, hk, rfl, he⟩⟩

theorem lookupsAt_append (d : Nat) (a b : List Event) :
    lookupsAt d (a ++ b) = lookupsAt d a ++ lookupsAt d b := by
  unfold lookupsAt
  exact List.filterMap_append _ _ _

theorem lookupsAt_visitEvents (T : CornerOperatorTree) (thrs : ℚ) (d d' : Nat) (l : Int) :
    lookupsAt d' (visitEvents T thrs d l) = if d = d' then [l] else [] := by
  unfold visitEvents lookupsAt
  rw [List.filterMap_cons]
  have h : List.filterMap (fun e =>
      match e with
      | Event.lookup d l => if d = d' then some l else none
      | Event.setWidth _ _ _ => none)
      (([1, 2, 3].filter (fun k => exceeds T thrs d l k)).map
        (fun k => Event.setWidth d k l)) = [] := by
    rw [List.filterMap_eq_nil_iff]
    intro e he
    simp only [List.mem_map] at he
    obtain ⟨k, _, rfl⟩ := he
    rfl
  rw [h]
  split_ifs <;> simp_all

theorem lookupsAt_flatMap_visitEvents (T : CornerOperatorTree) (thrs : ℚ) (d d' : Nat)
    (ls : List Int) :
    lookupsAt d' (ls.flatMap (visitEvents T thrs d)) = if d = d' then ls else [] := by
  induction ls with
  | nil => simp [lookupsAt]
  | cons l ls ih =>
    rw [List.flatMap_cons, lookupsAt_append, ih, lookupsAt_visitEvents]
    split_ifs <;> simp

theorem lookupsAt_levelEvents (T : CornerOperatorTree) (thrs : ℚ) (d d' : Nat) :
    lookupsAt d' (levelEvents T thrs d) = if d = d' then levelVisits T thrs d else [] := by
  unfold levelEvents
  have h : lookupsAt d' (Event.setWidth d 0 (maxTransl d) ::
      (levelVisits T thrs d).flatMap (visitEvents T thrs d)) =
      lookupsAt d' ((levelVisits T thrs d).flatMap (visitEvents T thrs d)) := by
    unfold lookupsAt
    rw [List.filterMap_cons]
  rw [h, lookupsAt_flatMap_visitEvents]

theorem lookupsAt_scanDepths (T : CornerOperatorTree) (thrs : ℚ) (n d : Nat) :
    lookupsAt d (scanDepths T thrs n).trace = if d < n then levelVisits T thrs d else [] := by
  induction n with
  | zero => simp [scanDepths, lookupsAt]
  | succ n ih =>
    rw [scanDepths_succ, depthPass_trace, lookupsAt_append, ih, lookupsAt_levelEvents]
    by_cases h1 : d < n
    · have h2 : n ≠ d := by omega
      simp [h1, h2, Nat.lt_succ_of_lt h1]
    · by_cases h2 : n = d
      · subst h2; simp
      · have h3 : ¬ d < n + 1 := by omega
        simp [h1, h2, h3]

theorem mem_scanDepths_trace (T : CornerOperatorTree) (thrs : ℚ) (n : Nat) (e : Event) :
    e ∈ (scanDepths T thrs n).trace ↔ ∃ d, d < n ∧ e ∈ levelEvents T thrs d := by
  rw [scanDepths_trace]
  simp [List.mem_flatMap, List.mem_range]


theorem exceeds_iff (T : CornerOperatorTree) (thrs : ℚ) (d : Nat) (l : Int) (k : Nat) :
    exceeds T thrs d l k = true ↔
      ∃ nd, T.findNode d l 0 = some nd ∧ nd.getComponentNorm k > thrs := by
  unfold exceeds
  cases T.findNode d l 0 with
  | none => simp
  | some nd => simp

theorem visited_withTable (T : CornerOperatorTree) (b : Option BandWidth) (thrs : ℚ)
    (d : Nat) (n : Nat) :
    visited { T with bandWidth := b } thrs d n = visited T thrs d n := by
  induction n with
  | zero => rfl
  | succ n ih =>
    unfold visited
    rw [ih]
    rfl

theorem calcBandWidthRun_withTable (mp : ℚ) (T : CornerOperatorTree) (b : Option BandWidth)
    (prec : ℚ) :
    calcBandWidthRun mp { T with bandWidth := b } prec = calcBandWidthRun mp T prec := by
  have h : ∀ thrs s d,
      depthPass { T with bandWidth := b } thrs s d = depthPass T thrs s d := by
    intro thrs s d
    rw [depthPass_eq, depthPass_eq]
    have h1 : levelVisits { T with bandWidth := b } thrs d = levelVisits T thrs d := by
      unfold levelVisits
      rw [visited_withTable]
    rw [h1]
    rfl
  unfold calcBandWidthRun
  have h2 : depthPass { T with bandWidth := b } (threshold mp { T with bandWidth := b } prec) =
      depthPass T (threshold mp T prec) := by
    funext s d
    rw [h]
    rfl
  rw [h2]

theorem calcBandWidthRun_clear (mp : ℚ) (T : CornerOperatorTree) (prec : ℚ) :
    calcBandWidthRun mp T.clearBandWidth prec = calcBandWidthRun mp T prec :=
  calcBandWidthRun_withTable mp T none prec

theorem calcBandWidthRun_after (mp : ℚ) (T : CornerOperatorTree) (p q : ℚ) :
    calcBandWidthRun mp (calcBandWidth mp T p) q = calcBandWidthRun mp T q := by
  unfold calcBandWidth
  by_cases h : T.bandWidth.isNone = true
  · simp only [h, if_true]
    rw [calcBandWidthRun_withTable, calcBandWidthRun_clear]
  · simp only [h]
    exact calcBandWidthRun_withTable mp T _ q

theorem calcBandWidth_bandWidth (mp : ℚ) (T : CornerOperatorTree) (prec : ℚ) :
    (calcBandWidth mp T prec).bandWidth = some (calcBandWidthRun mp T prec).bandWidth := by
  unfold calcBandWidth
  by_cases h : T.bandWidth.isNone = true
  · simp only [h, if_true]
    rw [calcBandWidthRun_clear]
  · simp only [h]
    rfl

theorem mem_trace_lookup (T : CornerOperatorTree) (thrs : ℚ) (n d : Nat) (l : Int) :
    Event.lookup d l ∈ (scanDepths T thrs n).trace ↔ d < n ∧ l ∈ levelVisits T thrs d := by
  rw [mem_scanDepths_trace]
  constructor
  · rintro ⟨d', hd', hm⟩
    obtain ⟨rfl, hl⟩ := (mem_levelEvents_lookup T thrs d' d l).mp hm
    exact ⟨hd', hl⟩
  · rintro ⟨hd, hl⟩
    exact ⟨d, hd, (mem_levelEvents_lookup T thrs d d l).mpr ⟨rfl, hl⟩⟩

theorem mem_trace_setWidth (T : CornerOperatorTree) (thrs : ℚ) (n d k : Nat) (w : Int)
    (hk : k = 1 ∨ k = 2 ∨ k = 3) :
    Event.setWidth d k w ∈ (scanDepths T thrs n).trace ↔
      d < n ∧ w ∈ levelVisits T thrs d ∧ exceeds T thrs d w k = true := by
  rw [mem_scanDepths_trace]
  constructor
  · rintro ⟨d', hd', hm⟩
    obtain ⟨rfl, h | h⟩ := (mem_levelEvents_setWidth T thrs d' d k w).mp hm
    · omega
    · exact ⟨hd', h.2⟩
  · rintro ⟨hd, hl⟩
    exact ⟨d, hd, (mem_levelEvents_setWidth T thrs d d k w).mpr ⟨rfl, Or.inr ⟨hk, hl⟩⟩⟩

theorem mem_trace_setWidth_zero (T : CornerOperatorTree) (thrs : ℚ) (n d : Nat) (w : Int) :
    Event.setWidth d 0 w ∈ (scanDepths T thrs n).trace ↔ d < n ∧ w = maxTransl d := by
  rw [mem_scanDepths_trace]
  constructor
  · rintro ⟨d', hd', hm⟩
    obtain ⟨rfl, h | h⟩ := (mem_levelEvents_setWidth T thrs d' d 0 w).mp hm
    · exact ⟨hd', h.2⟩
    · omega
  · rintro ⟨hd, hl⟩
    exact ⟨d, hd, (mem_levelEvents_setWidth T thrs d d 0 w).mpr ⟨rfl, Or.inl ⟨rfl, hl⟩⟩⟩

theorem mem_trace_setWidth_index (T : CornerOperatorTree) (thrs : ℚ) (n d k : Nat) (w : Int)
    (h : Event.setWidth d k w ∈ (scanDepths T thrs n).trace) :
    k = 0 ∨ k = 1 ∨ k = 2 ∨ k = 3 := by
  rw [mem_scanDepths_trace] at h
  obtain ⟨d', _, hm⟩ := h
  obtain ⟨_, h | h⟩ := (mem_levelEvents_setWidth T thrs d' d k w).mp hm
  · exact Or.inl h.1
  · exact Or.inr h.1

theorem trace_setWidth_le (T : CornerOperatorTree) (thrs : ℚ) (n d k : Nat) (w : Int)
    (h : Event.setWidth d k w ∈ (scanDepths T thrs n).trace) : w ≤ maxTransl d := by
  rcases mem_trace_setWidth_index T thrs n d k w h with rfl | hk
  · rw [((mem_trace_setWidth_zero T thrs n d w).mp h).2]
  · exact (levelVisits_mem_le T thrs d w ((mem_trace_setWidth T thrs n d k w hk).mp h).2.1).2

theorem scanDepths_getMaxWidth (T : CornerOperatorTree) (thrs : ℚ) (n d : Nat) (h : d < n) :
    (scanDepths T thrs n).bandWidth.getMaxWidth d = maxTransl d := by
  unfold BandWidth.getMaxWidth
  have h0 := scanDepths_widths_zero T thrs n d h
  have h1 := scanDepths_widths_le T thrs n d 1 h
  have h2 := scanDepths_widths_le T thrs n d 2 h
  have h3 := scanDepths_widths_le T thrs n d 3 h
  rw [h0]
  rw [max_eq_left h1, max_eq_left (max_le h2 h3)]

/-! ## The sample tree -/

theorem sample_threshold_one : threshold sampleMachinePrec sampleTree 1 = 1 / 10 := by
  norm_num [threshold, sampleMachinePrec]

theorem sample_threshold_tenth : threshold sampleMachinePrec sampleTree (1 / 10) = 1 / 100 := by
  norm_num [threshold, sampleMachinePrec]

theorem sample_exceeds_one_far : exceeds sampleTree (1 / 10) 1 1 1 = true := by
  simp [exceeds, sampleTree, nodeOf]
  norm_num

theorem sample_exceeds_one_near : exceeds sampleTree (1 / 10) 1 0 1 = false := by
  simp [exceeds, sampleTree, nodeOf]
  norm_num

theorem sample_exceeds_tenth_far : exceeds sampleTree (1 / 100) 1 1 1 = true := by
  simp [exceeds, sampleTree, nodeOf]
  norm_num

theorem sample_exceeds_tenth_near : exceeds sampleTree (1 / 100) 1 0 1 = true := by
  simp [exceeds, sampleTree, nodeOf]
  norm_num

theorem sample_active_one_far : active sampleTree (1 / 10) 1 1 = true := by
  unfold active
  rw [sample_exceeds_one_far]
  rfl

theorem sample_active_one_near : active sampleTree (1 / 10) 1 0 = false := by
  simp [active, exceeds, sampleTree, nodeOf]
  norm_num

theorem sample_active_tenth_far : active sampleTree (1 / 100) 1 1 = true := by
  unfold active
  rw [sample_exceeds_tenth_far]
  rfl

theorem sample_maxTransl_one : maxTransl 1 = 1 := by
  norm_num [maxTransl, shiftLeftOne, wrapInt32]

theorem sample_levelVisits_one : levelVisits sampleTree (1 / 10) 1 = [1, 0] := by
  unfold levelVisits
  rw [sample_maxTransl_one, if_pos (by norm_num)]
  have h1 : (1 : Int).toNat = 0 + 1 := rfl
  have h2 : ((0 + 1 : Nat) : Int) = 1 := rfl
  rw [h1]
  unfold visited
  rw [h2, sample_active_one_far]
  rfl

theorem sample_levelVisits_tenth : levelVisits sampleTree (1 / 100) 1 = [1, 0] := by
  unfold levelVisits
  rw [sample_maxTransl_one, if_pos (by norm_num)]
  have h1 : (1 : Int).toNat = 0 + 1 := rfl
  have h2 : ((0 + 1 : Nat) : Int) = 1 := rfl
  rw [h1]
  unfold visited
  rw [h2, sample_active_tenth_far]
  rfl

theorem sample_width_one :
    (calcBandWidthRun sampleMachinePrec sampleTree 1).bandWidth.getWidth 1 1 = 1 := by
  rw [calcBandWidthRun_eq, sample_threshold_one]
  have h := scanDepths_widths_of_hit sampleTree (1 / 10) sampleTree.getDepth 1 1
    (by decide) (Or.inl rfl)
    ⟨1, by rw [sample_levelVisits_one]; simp, sample_exceeds_one_far⟩
  obtain ⟨h1, h2, _⟩ := h
  rw [sample_levelVisits_one] at h1
  unfold BandWidth.getWidth
  simp only [List.mem_cons, List.mem_singleton, List.not_mem_nil, or_false] at h1
  rcases h1 with h1 | h1
  · exact h1
  · rw [h1, sample_exceeds_one_near] at h2
    cases h2

theorem sample_width_tenth :
    (calcBandWidthRun sampleMachinePrec sampleTree (1 / 10)).bandWidth.getWidth 1 1 = 0 := by
  rw [calcBandWidthRun_eq, sample_threshold_tenth]
  have h := scanDepths_widths_of_hit sampleTree (1 / 100) sampleTree.getDepth 1 1
    (by decide) (Or.inl rfl)
    ⟨1, by rw [sample_levelVisits_tenth]; simp, sample_exceeds_tenth_far⟩
  obtain ⟨h1, _, h3⟩ := h
  rw [sample_levelVisits_tenth] at h1 h3
  unfold BandWidth.getWidth
  have h4 := h3 0 (by simp) sample_exceeds_tenth_near
  simp only [List.mem_cons, List.mem_singleton, List.not_mem_nil, or_false] at h1
  rcases h1 with h1 | h1
  · omega
  · exact h1


theorem exceeds_of_active_false (T : CornerOperatorTree) (thrs : ℚ) (d : Nat) (l : Int)
    (k : Nat) (hk : k = 1 ∨ k = 2 ∨ k = 3) (h : active T thrs d l = false) :
    exceeds T thrs d l k = false := by
  unfold active at h
  simp only [Bool.or_eq_false_iff] at h
  rcases hk with rfl | rfl | rfl
  · exact h.1.1
  · exact h.1.2
  · exact h.2

theorem isStopPoint_ge (T : CornerOperatorTree) (thrs : ℚ) (d : Nat) (hi m : Int)
    (h : IsStopPoint T thrs d hi m) : -1 ≤ m := by
  rcases h with ⟨h, _⟩ | ⟨h, _⟩ <;> omega

theorem exists_isStopPoint (T : CornerOperatorTree) (thrs : ℚ) (d : Nat) (n : Nat) :
    ∃ m, IsStopPoint T thrs d (n : Int) m := by
  induction n with
  | zero =>
    by_cases ha : active T thrs d 0 = true
    · refine ⟨-1, Or.inl ⟨rfl, ?_⟩⟩
      intro l h0 h1
      have : l = 0 := by push_cast at h1; omega
      rw [this]; exact ha
    · refine ⟨0, Or.inr ⟨le_refl _, by simp, by simpa using ha, ?_⟩⟩
      intro l h0 h1
      push_cast at h1
      omega
  | succ n ih =>
    by_cases ha : active T thrs d ((n + 1 : Nat) : Int) = true
    · obtain ⟨m, hm⟩ := ih
      refine ⟨m, ?_⟩
      rcases hm with ⟨h, hall⟩ | ⟨h1, h2, h3, hall⟩
      · refine Or.inl ⟨h, ?_⟩
        intro l h0 h1
        by_cases hl : l = ((n + 1 : Nat) : Int)
        · rw [hl]; exact ha
        · exact hall l h0 (by push_cast at h1 hl; omega)
      · refine Or.inr ⟨h1, by push_cast; omega, h3, ?_⟩
        intro l h0 hl1
        by_cases hl : l = ((n + 1 : Nat) : Int)
        · rw [hl]; exact ha
        · exact hall l h0 (by push_cast at hl1 hl; omega)
    · refine ⟨((n + 1 : Nat) : Int), Or.inr ⟨by omega, le_refl _, by simpa using ha, ?_⟩⟩
      intro l h0 h1
      omega

theorem exists_isStopPoint_depth (T : CornerOperatorTree) (thrs : ℚ) (d : Nat) :
    ∃ m, IsStopPoint T thrs d (2 ^ d - 1) m := by
  have h2 : (1 : Nat) ≤ 2 ^ d := Nat.one_le_two_pow
  have h3 : ((2 ^ d - 1 : Nat) : Int) = 2 ^ d - 1 := by push_cast [h2]; rfl
  have := exists_isStopPoint T thrs d (2 ^ d - 1)
  rw [h3] at this
  exact this

theorem sample_maxTransl_two : maxTransl 2 = 3 := by
  norm_num [maxTransl, shiftLeftOne, wrapInt32]

theorem sample_active_two (thrs : ℚ) : active sampleTree thrs 2 3 = false := by
  simp [active, exceeds, sampleTree]

theorem sample_levelVisits_two (thrs : ℚ) : levelVisits sampleTree thrs 2 = [3] := by
  unfold levelVisits
  rw [sample_maxTransl_two, if_pos (by norm_num)]
  have h1 : (3 : Int).toNat = 2 + 1 := rfl
  have h2 : ((2 + 1 : Nat) : Int) = 3 := rfl
  rw [h1]
  unfold visited
  rw [h2, sample_active_two]
  rfl

theorem sample_exceeds_two (thrs : ℚ) : exceeds sampleTree thrs 2 3 2 = false := by
  simp [exceeds, sampleTree]

theorem sample_exceeds_two_near : exceeds sampleTree (1 / 100) 2 0 2 = true := by
  simp [exceeds, sampleTree, nodeOf]
  norm_num

theorem sample_width_two :
    (calcBandWidthRun sampleMachinePrec sampleTree (1 / 10)).bandWidth.getWidth 2 2 = -1 := by
  rw [calcBandWidthRun_eq]
  apply scanDepths_widths_of_no_hit _ _ _ 2 2 (by decide) (by decide)
  intro j hj
  rw [sample_levelVisits_two] at hj
  simp only [List.mem_singleton] at hj
  rw [hj]
  exact sample_exceeds_two _

theorem sample_records_one :
    Event.setWidth 1 1 1 ∈ (calcBandWidthRun sampleMachinePrec sampleTree 1).trace := by
  rw [calcBandWidthRun_eq, sample_threshold_one, mem_trace_setWidth _ _ _ _ _ _ (Or.inl rfl)]
  refine ⟨by decide, ?_, sample_exceeds_one_far⟩
  rw [sample_levelVisits_one]
  simp

theorem sample_lookups_one :
    lookupsAt 1 (calcBandWidthRun sampleMachinePrec sampleTree 1).trace = [1, 0] := by
  rw [calcBandWidthRun_eq, sample_threshold_one, lookupsAt_scanDepths, if_pos (by decide),
    sample_levelVisits_one]

theorem sample_lookups_tenth :
    lookupsAt 1 (calcBandWidthRun sampleMachinePrec sampleTree (1 / 10)).trace = [1, 0] := by
  rw [calcBandWidthRun_eq, sample_threshold_tenth, lookupsAt_scanDepths, if_pos (by decide),
    sample_levelVisits_tenth]

theorem sample_isStopPoint_one :
    IsStopPoint sampleTree (threshold sampleMachinePrec sampleTree 1) 1 (2 ^ 1 - 1) 0 := by
  rw [sample_threshold_one]
  refine Or.inr ⟨le_refl _, by norm_num, sample_active_one_near, ?_⟩
  intro l h1 h2
  have : l = 1 := by norm_num at h2; omega
  rw [this]
  exact sample_active_one_far


/-! ## The band-width query -/

theorem absInt32_of_range (t : Int) (hlo : -2147483648 < t) (hhi : t < 2147483648) :
    absInt32 t = |t| := by
  unfold absInt32
  apply wrapInt32_of_range
  · have := abs_nonneg t
    omega
  · rcases abs_cases t with ⟨h, _⟩ | ⟨h, _⟩ <;> omega

theorem sample_width_zero :
    (calcBandWidthRun sampleMachinePrec sampleTree 1).bandWidth.getWidth 1 0 = 1 := by
  rw [calcBandWidthRun_eq]
  unfold BandWidth.getWidth
  rw [scanDepths_widths_zero _ _ _ 1 (by decide), sample_maxTransl_one]

theorem isOutsideBand_of_table (T : CornerOperatorTree) (bw : BandWidth) (t : Int)
    (d idx : Nat) (hT : T.bandWidth = some bw) :
    isOutsideBand T t d idx =
      Outcome.returned (decide (absInt32 t < bw.getWidth d idx)) := by
  unfold isOutsideBand
  rw [hT]

/-- C1, as the code has it: on a tree that has a band-width table, for every translation
`t` whose absolute value is an `int` (every `t` but `INT_MIN`), every depth and every
component index, `isOutsideBand(t, d, idx)` returns true if and only if `|t|` is strictly
below the width stored for `(d, idx)`, and returns false if and only if `|t|` is at least
that width. -/
theorem isOutsideBand_iff_abs_lt (T : CornerOperatorTree) (bw : BandWidth) (t : Int)
    (d idx : Nat) (hT : T.bandWidth = some bw) (hlo : -2147483648 < t)
    (hhi : t < 2147483648) :
    (isOutsideBand T t d idx = Outcome.returned true ↔ |t| < bw.getWidth d idx) ∧
    (isOutsideBand T t d idx = Outcome.returned false ↔ bw.getWidth d idx ≤ |t|) := by
  rw [isOutsideBand_of_table T bw t d idx hT, absInt32_of_range t hlo hhi]
  constructor
  · constructor
    · intro h
      injection h with h
      exact of_decide_eq_true h
    · intro h
      rw [decide_eq_true h]
  · constructor
    · intro h
      injection h with h
      exact not_lt.mp (of_decide_eq_false h)
    · intro h
      rw [decide_eq_false (not_lt.mpr h)]

/-- Witness of C1 (as the code has it) on the sample tree after `calcBandWidth(1)`, at
translation 0, depth 1, component 0. -/
theorem isOutsideBand_iff_abs_lt_witness :
    (calcBandWidth sampleMachinePrec sampleTree 1).bandWidth =
      some (calcBandWidthRun sampleMachinePrec sampleTree 1).bandWidth ∧
    (-2147483648 : Int) < 0 ∧ (0 : Int) < 2147483648 ∧
    ((isOutsideBand (calcBandWidth sampleMachinePrec sampleTree 1) 0 1 0 =
        Outcome.returned true ↔
      |(0 : Int)| < (calcBandWidthRun sampleMachinePrec sampleTree 1).bandWidth.getWidth 1 0) ∧
    (isOutsideBand (calcBandWidth sampleMachinePrec sampleTree 1) 0 1 0 =
        Outcome.returned false ↔
      (calcBandWidthRun sampleMachinePrec sampleTree 1).bandWidth.getWidth 1 0 ≤ |(0 : Int)|)) :=
  ⟨calcBandWidth_bandWidth _ _ _, by norm_num, by norm_num,
    isOutsideBand_iff_abs_lt _ _ 0 1 0 (calcBandWidth_bandWidth _ _ _) (by norm_num)
      (by norm_num)⟩

/-- C1 refuted as stated: on the sample tree after `calcBandWidth(1)` the width stored for
depth 1, component 0 is 1, and `isOutsideBand(0, 1, 0)` returns true although `|0| ≥ 1`
does not hold. -/
theorem isOutsideBand_ge_counterexample :
    (calcBandWidth sampleMachinePrec sampleTree 1).bandWidth =
      some (calcBandWidthRun sampleMachinePrec sampleTree 1).bandWidth ∧
    (calcBandWidthRun sampleMachinePrec sampleTree 1).bandWidth.getWidth 1 0 = 1 ∧
    isOutsideBand (calcBandWidth sampleMachinePrec sampleTree 1) 0 1 0 =
      Outcome.returned true ∧
    ¬ (isOutsideBand (calcBandWidth sampleMachinePrec sampleTree 1) 0 1 0 =
        Outcome.returned true ↔
      (calcBandWidthRun sampleMachinePrec sampleTree 1).bandWidth.getWidth 1 0 ≤
        |(0 : Int)|) := by
  have hb := calcBandWidth_bandWidth sampleMachinePrec sampleTree 1
  have hw := sample_width_zero
  have ht : isOutsideBand (calcBandWidth sampleMachinePrec sampleTree 1) 0 1 0 =
      Outcome.returned true := by
    rw [isOutsideBand_of_table _ _ 0 1 0 hb, hw]
    rfl
  refine ⟨hb, hw, ht, ?_⟩
  intro h
  have := h.mp ht
  rw [hw] at this
  norm_num at this

/-! ## Monotonicity in the precision -/

/-- C2: for precisions `p1 > p2 > 0` and every depth `d < getDepth()`, the maximum band
width at depth `d` after `calcBandWidth(p1)` is at most the one after `calcBandWidth(p2)`,
and, when the stored `normPrec` is at most `p2`, the maximum after `calcBandWidth(p2)` is at
most the one after `calcBandWidth(-1)`. (The scan sets the width of component 0 to
`(1 << d) - 1` and, by `trace_setWidth_le`, writes nothing larger at that depth, so the
three maxima coincide, whether the maximum is read over the stored widths or over all the
widths written.) -/
theorem calcBandWidth_maxWidth_monotone (MachinePrec : ℚ) (T : CornerOperatorTree)
    (p1 p2 : ℚ) (_h12 : p2 < p1) (_h2 : 0 < p2) (d : Nat) (hd : d < T.getDepth) :
    (calcBandWidthRun MachinePrec T p1).bandWidth.getMaxWidth d ≤
      (calcBandWidthRun MachinePrec T p2).bandWidth.getMaxWidth d ∧
    (T.normPrec ≤ p2 →
      (calcBandWidthRun MachinePrec T p2).bandWidth.getMaxWidth d ≤
        (calcBandWidthRun MachinePrec T (-1)).bandWidth.getMaxWidth d) := by
  simp only [calcBandWidthRun_eq]
  rw [scanDepths_getMaxWidth _ _ _ _ hd, scanDepths_getMaxWidth _ _ _ _ hd,
    scanDepths_getMaxWidth _ _ _ _ hd]
  exact ⟨le_refl _, fun _ => le_refl _⟩

/-- Witness of C2 on the sample tree, whose stored `normPrec` is 1/1000, with the
precisions 1, 1/1000 and -1 at depth 1. -/
theorem calcBandWidth_maxWidth_monotone_witness :
    (1 / 1000 : ℚ) < 1 ∧ (0 : ℚ) < 1 / 1000 ∧ 1 < sampleTree.getDepth ∧
    sampleTree.normPrec ≤ 1 / 1000 ∧
    ((calcBandWidthRun sampleMachinePrec sampleTree 1).bandWidth.getMaxWidth 1 ≤
      (calcBandWidthRun sampleMachinePrec sampleTree (1 / 1000)).bandWidth.getMaxWidth 1 ∧
    (calcBandWidthRun sampleMachinePrec sampleTree (1 / 1000)).bandWidth.getMaxWidth 1 ≤
      (calcBandWidthRun sampleMachinePrec sampleTree (-1)).bandWidth.getMaxWidth 1) :=
  ⟨by norm_num, by norm_num, by decide, by norm_num [sampleTree],
    (calcBandWidth_maxWidth_monotone sampleMachinePrec sampleTree 1 (1 / 1000) (by norm_num)
      (by norm_num) 1 (by decide)).1,
    (calcBandWidth_maxWidth_monotone sampleMachinePrec sampleTree 1 (1 / 1000) (by norm_num)
      (by norm_num) 1 (by decide)).2 (by norm_num [sampleTree])⟩

/-- C3, as the code has it: for precisions `p1 > p2 > 0`, every depth `d < getDepth()` and
every component `k` in 1..3 for which `calcBandWidth(p1)` records a width,
`calcBandWidth(p2)` records a width for `(d, k)` too, and the width it leaves for `(d, k)`
is at most the width left by `calcBandWidth(p1)`: lowering the threshold cannot increase a
recorded width. -/
theorem calcBandWidth_width_antitone (MachinePrec : ℚ) (T : CornerOperatorTree)
    (p1 p2 : ℚ) (h12 : p2 < p1) (h2 : 0 < p2) (d k : Nat) (hd : d < T.getDepth)
    (hk : k = 1 ∨ k = 2 ∨ k = 3)
    (hrec : ∃ w, Event.setWidth d k w ∈ (calcBandWidthRun MachinePrec T p1).trace) :
    (∃ w, Event.setWidth d k w ∈ (calcBandWidthRun MachinePrec T p2).trace) ∧
    (calcBandWidthRun MachinePrec T p2).bandWidth.getWidth d k ≤
      (calcBandWidthRun MachinePrec T p1).bandWidth.getWidth d k := by
  have ht := threshold_mono MachinePrec T p1 p2 h12 h2
  simp only [calcBandWidthRun_eq, BandWidth.getWidth] at *
  obtain ⟨w, hw⟩ := hrec
  obtain ⟨_, hw1, hw2⟩ := (mem_trace_setWidth _ _ _ _ _ _ hk).mp hw
  obtain ⟨a1, a2, _⟩ := scanDepths_widths_of_hit T _ T.getDepth d k hd hk ⟨w, hw1, hw2⟩
  have b1 := levelVisits_mono T _ _ ht d _ a1
  have b2 := exceeds_mono T _ _ ht d _ k a2
  obtain ⟨c1, c2, c3⟩ := scanDepths_widths_of_hit T _ T.getDepth d k hd hk ⟨_, b1, b2⟩
  exact ⟨⟨_, (mem_trace_setWidth _ _ _ _ _ _ hk).mpr ⟨hd, c1, c2⟩⟩, c3 _ b1 b2⟩

/-- Witness of C3 (as the code has it) on the sample tree with the precisions 1 and 1/10
at depth 1, component 1. -/
theorem calcBandWidth_width_antitone_witness :
    (1 / 10 : ℚ) < 1 ∧ (0 : ℚ) < 1 / 10 ∧ 1 < sampleTree.getDepth ∧
    (∃ w, Event.setWidth 1 1 w ∈ (calcBandWidthRun sampleMachinePrec sampleTree 1).trace) ∧
    ((∃ w, Event.setWidth 1 1 w ∈
        (calcBandWidthRun sampleMachinePrec sampleTree (1 / 10)).trace) ∧
    (calcBandWidthRun sampleMachinePrec sampleTree (1 / 10)).bandWidth.getWidth 1 1 ≤
      (calcBandWidthRun sampleMachinePrec sampleTree 1).bandWidth.getWidth 1 1) :=
  ⟨by norm_num, by norm_num, by decide, ⟨1, sample_records_one⟩,
    calcBandWidth_width_antitone sampleMachinePrec sampleTree 1 (1 / 10) (by norm_num)
      (by norm_num) 1 1 (by decide) (Or.inl rfl) ⟨1, sample_records_one⟩⟩

/-- C3 refuted as stated: on the sample tree with `p1 = 1 > p2 = 1/10 > 0`, at depth 1 and
component 1, `calcBandWidth(p1)` records a width and leaves 1, `calcBandWidth(p2)` leaves 0,
so the width for `p2` is not `≥` the width for `p1`. -/
theorem calcBandWidth_width_monotone_counterexample :
    (1 / 10 : ℚ) < 1 ∧ (0 : ℚ) < 1 / 10 ∧ 1 < sampleTree.getDepth ∧
    Event.setWidth 1 1 1 ∈ (calcBandWidthRun sampleMachinePrec sampleTree 1).trace ∧
    (calcBandWidthRun sampleMachinePrec sampleTree 1).bandWidth.getWidth 1 1 = 1 ∧
    (calcBandWidthRun sampleMachinePrec sampleTree (1 / 10)).bandWidth.getWidth 1 1 = 0 ∧
    ¬ ((calcBandWidthRun sampleMachinePrec sampleTree 1).bandWidth.getWidth 1 1 ≤
      (calcBandWidthRun sampleMachinePrec sampleTree (1 / 10)).bandWidth.getWidth 1 1) := by
  refine ⟨by norm_num, by norm_num, by decide, sample_records_one, sample_width_one,
    sample_width_tenth, ?_⟩
  rw [sample_width_one, sample_width_tenth]
  norm_num


/-! ## What the scan records -/

theorem threshold_eq (MachinePrec : ℚ) (T : CornerOperatorTree) (prec : ℚ) :
    threshold MachinePrec T prec =
      max MachinePrec ((if 0 ≤ prec then prec else T.normPrec) / 10) := by
  unfold threshold
  by_cases h : prec < 0
  · rw [if_pos h, if_neg (not_le.mpr h)]
  · rw [if_neg h, if_pos (not_lt.mp h)]

/-- C4, as the code has it: after `calcBandWidth(prec)`, for every depth `d < getDepth()`
and every off-diagonal component `k` in 1..3 such that some translation among those the
scan looks up at depth `d` has an existing node `(d, (l, 0))` whose norm for `k` is above
the threshold, the width stored for `(d, k)` is the least such translation. -/
theorem calcBandWidth_width_least_visited (MachinePrec : ℚ) (T : CornerOperatorTree)
    (prec : ℚ) (d k : Nat) (hd : d < T.getDepth) (hk : k = 1 ∨ k = 2 ∨ k = 3)
    (hex : ∃ l ∈ lookupsAt d (calcBandWidthRun MachinePrec T prec).trace,
      exceeds T (threshold MachinePrec T prec) d l k = true) :
    (calcBandWidthRun MachinePrec T prec).bandWidth.getWidth d k ∈
      lookupsAt d (calcBandWidthRun MachinePrec T prec).trace ∧
    exceeds T (threshold MachinePrec T prec) d
      ((calcBandWidthRun MachinePrec T prec).bandWidth.getWidth d k) k = true ∧
    ∀ l ∈ lookupsAt d (calcBandWidthRun MachinePrec T prec).trace,
      exceeds T (threshold MachinePrec T prec) d l k = true →
        (calcBandWidthRun MachinePrec T prec).bandWidth.getWidth d k ≤ l := by
  simp only [calcBandWidthRun_eq, BandWidth.getWidth, lookupsAt_scanDepths, hd, if_true]
    at hex ⊢
  exact scanDepths_widths_of_hit T _ T.getDepth d k hd hk hex

/-- Witness of C4 (as the code has it) on the sample tree with precision 1/10 at depth 1,
component 1: the scan looks up the translations 1 and 0, both are above the threshold, and
the stored width is the least of them, 0. -/
theorem calcBandWidth_width_least_visited_witness :
    1 < sampleTree.getDepth ∧
    lookupsAt 1 (calcBandWidthRun sampleMachinePrec sampleTree (1 / 10)).trace = [1, 0] ∧
    (∃ l ∈ lookupsAt 1 (calcBandWidthRun sampleMachinePrec sampleTree (1 / 10)).trace,
      exceeds sampleTree (threshold sampleMachinePrec sampleTree (1 / 10)) 1 l 1 = true) ∧
    (calcBandWidthRun sampleMachinePrec sampleTree (1 / 10)).bandWidth.getWidth 1 1 = 0 ∧
    ((calcBandWidthRun sampleMachinePrec sampleTree (1 / 10)).bandWidth.getWidth 1 1 ∈
      lookupsAt 1 (calcBandWidthRun sampleMachinePrec sampleTree (1 / 10)).trace ∧
    exceeds sampleTree (threshold sampleMachinePrec sampleTree (1 / 10)) 1
      ((calcBandWidthRun sampleMachinePrec sampleTree (1 / 10)).bandWidth.getWidth 1 1) 1 =
        true ∧
    ∀ l ∈ lookupsAt 1 (calcBandWidthRun sampleMachinePrec sampleTree (1 / 10)).trace,
      exceeds sampleTree (threshold sampleMachinePrec sampleTree (1 / 10)) 1 l 1 = true →
        (calcBandWidthRun sampleMachinePrec sampleTree (1 / 10)).bandWidth.getWidth 1 1 ≤ l) :=
  have hex : ∃ l ∈ lookupsAt 1 (calcBandWidthRun sampleMachinePrec sampleTree (1 / 10)).trace,
      exceeds sampleTree (threshold sampleMachinePrec sampleTree (1 / 10)) 1 l 1 = true :=
    ⟨1, by rw [sample_lookups_tenth]; simp,
      by rw [sample_threshold_tenth]; exact sample_exceeds_tenth_far⟩
  ⟨by decide, sample_lookups_tenth, hex, sample_width_tenth,
    calcBandWidth_width_least_visited sampleMachinePrec sampleTree (1 / 10) 1 1 (by decide)
      (Or.inl rfl) hex⟩

/-- C4 refuted as stated, on the sample tree with precision 1/10 (threshold 1/100).
At depth 1, component 1, the nodes at the translations 0 and 1 are both above the
threshold, the maximal such translation is 1, and the stored width is 0. At depth 2,
component 2, the node at translation 0 (inside `0..2^2-1`) is above the threshold and no
width is stored: the table holds `-1`. -/
theorem calcBandWidth_width_maximal_counterexample :
    threshold sampleMachinePrec sampleTree (1 / 10) = 1 / 100 ∧
    exceeds sampleTree (1 / 100) 1 1 1 = true ∧
    exceeds sampleTree (1 / 100) 1 0 1 = true ∧
    (calcBandWidthRun sampleMachinePrec sampleTree (1 / 10)).bandWidth.getWidth 1 1 = 0 ∧
    (calcBandWidthRun sampleMachinePrec sampleTree (1 / 10)).bandWidth.getWidth 1 1 ≠ 1 ∧
    exceeds sampleTree (1 / 100) 2 0 2 = true ∧
    (calcBandWidthRun sampleMachinePrec sampleTree (1 / 10)).bandWidth.getWidth 2 2 = -1 ∧
    ¬ (∀ w : Int, (0 ≤ w ∧ w ≤ 2 ^ 1 - 1 ∧ exceeds sampleTree (1 / 100) 1 w 1 = true ∧
        ∀ l : Int, 0 ≤ l → l ≤ 2 ^ 1 - 1 → exceeds sampleTree (1 / 100) 1 l 1 = true → l ≤ w) →
      (calcBandWidthRun sampleMachinePrec sampleTree (1 / 10)).bandWidth.getWidth 1 1 = w) := by
  refine ⟨sample_threshold_tenth, sample_exceeds_tenth_far, sample_exceeds_tenth_near,
    sample_width_tenth, ?_, sample_exceeds_two_near, sample_width_two, ?_⟩
  · rw [sample_width_tenth]
    norm_num
  · intro h
    have h1 := h 1 ⟨by norm_num, by norm_num, sample_exceeds_tenth_far,
      fun l _ hl _ => by norm_num at hl; exact hl⟩
    rw [sample_width_tenth] at h1
    norm_num at h1

/-- C5, as the code has it: `calcBandWidth(prec)` uses the threshold
`max(MachinePrec, p/10)` with `p = prec` when `prec ≥ 0` and `p = normPrec` otherwise, and
compares with it the norms of the components 1..3 only. For a component `k` in 1..3 a
width `w` is recorded at depth `d` exactly when the scan looks up the translation `w` there
and the node `(d, (w, 0))` exists with a norm for `k` strictly above that threshold; hence
every recorded component in 1..3 has a norm strictly above `MachinePrec`. Component 0 is
not compared: a width is recorded for it at every depth `d < getDepth()`, and it is
`(1 << d) - 1`, whatever the nodes and their norms. -/
theorem calcBandWidth_records_iff_above_threshold (MachinePrec : ℚ) (T : CornerOperatorTree)
    (prec : ℚ) (d k : Nat) (w : Int) (hk : k = 1 ∨ k = 2 ∨ k = 3) :
    (Event.setWidth d k w ∈ (calcBandWidthRun MachinePrec T prec).trace ↔
      Event.lookup d w ∈ (calcBandWidthRun MachinePrec T prec).trace ∧
      ∃ nd, T.findNode d w 0 = some nd ∧
        nd.getComponentNorm k >
          max MachinePrec ((if 0 ≤ prec then prec else T.normPrec) / 10)) ∧
    (Event.setWidth d k w ∈ (calcBandWidthRun MachinePrec T prec).trace →
      ∃ nd, T.findNode d w 0 = some nd ∧ nd.getComponentNorm k > MachinePrec) ∧
    (∀ w0 : Int, Event.setWidth d 0 w0 ∈ (calcBandWidthRun MachinePrec T prec).trace ↔
      d < T.getDepth ∧ w0 = maxTransl d) := by
  have key : Event.setWidth d k w ∈ (calcBandWidthRun MachinePrec T prec).trace ↔
      Event.lookup d w ∈ (calcBandWidthRun MachinePrec T prec).trace ∧
      ∃ nd, T.findNode d w 0 = some nd ∧
        nd.getComponentNorm k >
          max MachinePrec ((if 0 ≤ prec then prec else T.normPrec) / 10) := by
    rw [← threshold_eq, ← exceeds_iff, calcBandWidthRun_eq, mem_trace_setWidth _ _ _ _ _ _ hk,
      mem_trace_lookup]
    tauto
  refine ⟨key, ?_, ?_⟩
  · intro h
    obtain ⟨_, nd, h1, h2⟩ := key.mp h
    exact ⟨nd, h1, lt_of_le_of_lt (le_max_left _ _) h2⟩
  · intro w0
    rw [calcBandWidthRun_eq]
    exact mem_trace_setWidth_zero _ _ _ _ _

/-- Witness of C5 (as the code has it) on the sample tree with precision 1, depth 1,
component 1, width 1. -/
theorem calcBandWidth_records_iff_above_threshold_witness :
    ((1 : Nat) = 1 ∨ (1 : Nat) = 2 ∨ (1 : Nat) = 3) ∧
    Event.setWidth 1 1 1 ∈ (calcBandWidthRun sampleMachinePrec sampleTree 1).trace ∧
    (∃ nd, sampleTree.findNode 1 1 0 = some nd ∧ nd.getComponentNorm 1 > sampleMachinePrec) ∧
    Event.setWidth 1 0 (maxTransl 1) ∈ (calcBandWidthRun sampleMachinePrec sampleTree 1).trace :=
  ⟨Or.inl rfl, sample_records_one,
    (calcBandWidth_records_iff_above_threshold sampleMachinePrec sampleTree 1 1 1 1
      (Or.inl rfl)).2.1 sample_records_one,
    ((calcBandWidth_records_iff_above_threshold sampleMachinePrec sampleTree 1 1 1 1
      (Or.inl rfl)).2.2 (maxTransl 1)).mpr ⟨by decide, rfl⟩⟩

/-- C5 refuted as stated, on the sample tree with precision 1. At depth 0 a width is
recorded for component 0 although the only node of that depth, the root, has norm 0 for
component 0, which is not above `MachinePrec`. At depth 2 the width 3 is recorded for
component 0 although there is no node at translation 3, so no norm was compared at all.
Hence it is not true that every recorded width belongs to a node whose norm for that
component is strictly above the threshold. -/
theorem calcBandWidth_component_zero_counterexample :
    Event.setWidth 0 0 0 ∈ (calcBandWidthRun sampleMachinePrec sampleTree 1).trace ∧
    sampleTree.findNode 0 0 0 = some (nodeOf 0 0 0) ∧
    (nodeOf 0 0 0).getComponentNorm 0 ≤ sampleMachinePrec ∧
    Event.setWidth 2 0 3 ∈ (calcBandWidthRun sampleMachinePrec sampleTree 1).trace ∧
    sampleTree.findNode 2 3 0 = none ∧
    ¬ (∀ (d k : Nat) (w : Int),
      Event.setWidth d k w ∈ (calcBandWidthRun sampleMachinePrec sampleTree 1).trace →
      ∃ nd, sampleTree.findNode d w 0 = some nd ∧
        nd.getComponentNorm k >
          max sampleMachinePrec ((if (0 : ℚ) ≤ 1 then 1 else sampleTree.normPrec) / 10)) := by
  have h0 : Event.setWidth 0 0 0 ∈ (calcBandWidthRun sampleMachinePrec sampleTree 1).trace := by
    rw [calcBandWidthRun_eq, mem_trace_setWidth_zero]
    exact ⟨by decide, by norm_num [maxTransl, shiftLeftOne, wrapInt32]⟩
  have h2 : Event.setWidth 2 0 3 ∈ (calcBandWidthRun sampleMachinePrec sampleTree 1).trace := by
    rw [calcBandWidthRun_eq, mem_trace_setWidth_zero]
    exact ⟨by decide, sample_maxTransl_two.symm⟩
  have hnone : sampleTree.findNode 2 3 0 = none := by
    simp [sampleTree]
  refine ⟨h0, by simp [sampleTree], by norm_num [nodeOf, sampleMachinePrec], h2, hnone, ?_⟩
  intro hall
  obtain ⟨nd, hnd, _⟩ := hall 2 0 3 h2
  rw [hnone] at hnd
  cases hnd

/-! ## Querying a tree without a table -/

/-- C6, as the code has it: on a tree in the no-table state, whether its table was never
computed or was computed and then cleared, `isOutsideBand` does not report a failure. Its
body holds no check of the table pointer, so the call dereferences the null pointer and
its behaviour is undefined. -/
theorem isOutsideBand_no_table_undefined (MachinePrec : ℚ) (T : CornerOperatorTree)
    (prec : ℚ) (t : Int) (d idx : Nat) (h : T.bandWidth = none) :
    isOutsideBand T t d idx = Outcome.undefinedBehaviour ∧
    isOutsideBand T t d idx ≠ Outcome.failed ∧
    isOutsideBand (calcBandWidth MachinePrec T prec).clearBandWidth t d idx =
      Outcome.undefinedBehaviour ∧
    isOutsideBand (calcBandWidth MachinePrec T prec).clearBandWidth t d idx ≠
      Outcome.failed := by
  have h1 : isOutsideBand T t d idx = Outcome.undefinedBehaviour := by
    unfold isOutsideBand
    rw [h]
  have h2 : isOutsideBand (calcBandWidth MachinePrec T prec).clearBandWidth t d idx =
      Outcome.undefinedBehaviour := rfl
  refine ⟨h1, ?_, h2, ?_⟩
  · rw [h1]
    exact fun hc => Outcome.noConfusion hc
  · rw [h2]
    exact fun hc => Outcome.noConfusion hc

/-- Witness of C6 (as the code has it) on the sample tree, which has no table, with
precision 1 and the query `isOutsideBand(5, 1, 2)`. -/
theorem isOutsideBand_no_table_undefined_witness :
    sampleTree.bandWidth = none ∧
    (isOutsideBand sampleTree 5 1 2 = Outcome.undefinedBehaviour ∧
    isOutsideBand sampleTree 5 1 2 ≠ Outcome.failed ∧
    isOutsideBand (calcBandWidth sampleMachinePrec sampleTree 1).clearBandWidth 5 1 2 =
      Outcome.undefinedBehaviour ∧
    isOutsideBand (calcBandWidth sampleMachinePrec sampleTree 1).clearBandWidth 5 1 2 ≠
      Outcome.failed) :=
  ⟨rfl, isOutsideBand_no_table_undefined sampleMachinePrec sampleTree 1 5 1 2 rfl⟩

/-- C6 refuted as stated: the sample tree has no table, and so has the tree obtained by
computing the table and clearing it; on both `isOutsideBand(0, 0, 0)` does not report a
failure. -/
theorem isOutsideBand_no_table_counterexample :
    sampleTree.bandWidth = none ∧
    isOutsideBand sampleTree 0 0 0 ≠ Outcome.failed ∧
    (calcBandWidth sampleMachinePrec sampleTree 1).clearBandWidth.bandWidth = none ∧
    isOutsideBand (calcBandWidth sampleMachinePrec sampleTree 1).clearBandWidth 0 0 0 ≠
      Outcome.failed := by
  refine ⟨rfl, ?_, rfl, ?_⟩
  · unfold isOutsideBand
    simp [sampleTree]
  · unfold isOutsideBand
    simp [CornerOperatorTree.clearBandWidth]


/-! ## The shape of the scan -/

theorem levelVisits_hit_iff (T : CornerOperatorTree) (thrs : ℚ) (d : Nat) (hd : d ≤ 30)
    (m : Int) (hm : IsStopPoint T thrs d (2 ^ d - 1) m) (k : Nat)
    (hk : k = 1 ∨ k = 2 ∨ k = 3) (j : Int) :
    (j ∈ levelVisits T thrs d ∧ exceeds T thrs d j k = true) ↔
      (m < j ∧ j ≤ 2 ^ d - 1 ∧ exceeds T thrs d j k = true) := by
  rw [levelVisits_eq_countDown T thrs d hd m hm, mem_countDown]
  have hge := isStopPoint_ge T thrs d _ m hm
  constructor
  · rintro ⟨⟨h1, h2⟩, h3⟩
    refine ⟨?_, h2, h3⟩
    have h4 : m ≤ j := le_trans (le_max_left _ _) h1
    rcases lt_or_eq_of_le h4 with h5 | h5
    · exact h5
    · exfalso
      rcases hm with ⟨hm1, _⟩ | ⟨_, _, hm3, _⟩
      · rw [hm1] at h5
        have : (0 : Int) ≤ j := le_trans (le_max_right _ _) h1
        omega
      · rw [← h5, exceeds_of_active_false T thrs d m k hk hm3] at h3
        cases h3
  · rintro ⟨h1, h2, h3⟩
    refine ⟨⟨?_, h2⟩, h3⟩
    apply max_le <;> omega

/-- C8: for every depth `d < getDepth()` (with `d ≤ 30`, so that `1 << d` is an `int`),
writing `L = 2^d - 1` and `m` for the stop point of the depth (the largest translation in
`0..L` at which the node is absent or no component 1..3 is above the threshold, `-1` when
there is none), the scan looks up exactly the translations `L, L-1, ..., max(m, 0)`, in
that order. For each component `k` in 1..3 the width left in the table is the least `l`
with `m < l ≤ L` whose norm for `k` is above the threshold; when there is no such `l`, no
width is written for `k` and the table keeps `-1`. -/
theorem calcBandWidth_scan_shape (MachinePrec : ℚ) (T : CornerOperatorTree) (prec : ℚ)
    (d : Nat) (hd : d < T.getDepth) (h30 : d ≤ 30) (m : Int)
    (hm : IsStopPoint T (threshold MachinePrec T prec) d (2 ^ d - 1) m) :
    lookupsAt d (calcBandWidthRun MachinePrec T prec).trace =
      countDown (2 ^ d - 1) (max m 0) ∧
    ∀ k : Nat, k = 1 ∨ k = 2 ∨ k = 3 →
      (∀ w : Int, m < w → w ≤ 2 ^ d - 1 →
        exceeds T (threshold MachinePrec T prec) d w k = true →
        (∀ l : Int, m < l → l ≤ 2 ^ d - 1 →
          exceeds T (threshold MachinePrec T prec) d l k = true → w ≤ l) →
        (calcBandWidthRun MachinePrec T prec).bandWidth.getWidth d k = w) ∧
      ((∀ l : Int, m < l → l ≤ 2 ^ d - 1 →
          exceeds T (threshold MachinePrec T prec) d l k = false) →
        (∀ w : Int, Event.setWidth d k w ∉ (calcBandWidthRun MachinePrec T prec).trace) ∧
        (calcBandWidthRun MachinePrec T prec).bandWidth.getWidth d k = -1) := by
  simp only [calcBandWidthRun_eq, BandWidth.getWidth]
  refine ⟨?_, ?_⟩
  · rw [lookupsAt_scanDepths, if_pos hd]
    exact levelVisits_eq_countDown T _ d h30 m hm
  · intro k hk
    have hiff := levelVisits_hit_iff T _ d h30 m hm k hk
    constructor
    · intro w hw1 hw2 hw3 hmin
      have hw := (hiff w).mpr ⟨hw1, hw2, hw3⟩
      obtain ⟨a1, a2, a3⟩ :=
        scanDepths_widths_of_hit T _ T.getDepth d k hd hk ⟨w, hw.1, hw.2⟩
      have hle := a3 w hw.1 hw.2
      obtain ⟨b1, b2, b3⟩ := (hiff _).mp ⟨a1, a2⟩
      have hge := hmin _ b1 b2 b3
      omega
    · intro hno
      have hnone : ∀ j ∈ levelVisits T (threshold MachinePrec T prec) d,
          exceeds T (threshold MachinePrec T prec) d j k = false := by
        intro j hj
        by_contra hc
        have hc' : exceeds T (threshold MachinePrec T prec) d j k = true := by simpa using hc
        obtain ⟨b1, b2, _⟩ := (hiff j).mp ⟨hj, hc'⟩
        rw [hno j b1 b2] at hc'
        cases hc'
      refine ⟨?_, scanDepths_widths_of_no_hit T _ T.getDepth d k hd (by omega) hnone⟩
      intro w hw
      obtain ⟨_, c1, c2⟩ := (mem_trace_setWidth _ _ _ _ _ _ hk).mp hw
      rw [hnone w c1] at c2
      cases c2

/-- Witness of C8 on the sample tree with precision 1 at depth 1, where the stop point is
the translation 0. -/
theorem calcBandWidth_scan_shape_witness :
    1 < sampleTree.getDepth ∧ 1 ≤ 30 ∧
    IsStopPoint sampleTree (threshold sampleMachinePrec sampleTree 1) 1 (2 ^ 1 - 1) 0 ∧
    (lookupsAt 1 (calcBandWidthRun sampleMachinePrec sampleTree 1).trace =
      countDown (2 ^ 1 - 1) (max 0 0) ∧
    ∀ k : Nat, k = 1 ∨ k = 2 ∨ k = 3 →
      (∀ w : Int, 0 < w → w ≤ 2 ^ 1 - 1 →
        exceeds sampleTree (threshold sampleMachinePrec sampleTree 1) 1 w k = true →
        (∀ l : Int, 0 < l → l ≤ 2 ^ 1 - 1 →
          exceeds sampleTree (threshold sampleMachinePrec sampleTree 1) 1 l k = true →
            w ≤ l) →
        (calcBandWidthRun sampleMachinePrec sampleTree 1).bandWidth.getWidth 1 k = w) ∧
      ((∀ l : Int, 0 < l → l ≤ 2 ^ 1 - 1 →
          exceeds sampleTree (threshold sampleMachinePrec sampleTree 1) 1 l k = false) →
        (∀ w : Int,
          Event.setWidth 1 k w ∉ (calcBandWidthRun sampleMachinePrec sampleTree 1).trace) ∧
        (calcBandWidthRun sampleMachinePrec sampleTree 1).bandWidth.getWidth 1 k = -1)) :=
  ⟨by decide, by decide, sample_isStopPoint_one,
    calcBandWidth_scan_shape sampleMachinePrec sampleTree 1 1 (by decide) (by decide) 0
      sample_isStopPoint_one⟩

/-- C10: for every tree with `getDepth() ≤ 30`, every precision and every depth
`d < getDepth()`, `calcBandWidth` sets the width of component 0 to exactly `2^d - 1`, every
node lookup at depth `d` uses a translation `l` with `0 ≤ l ≤ 2^d - 1`, every width written
for a component other than 0 lies in `[0, 2^d - 1]`, and the scan of the depth makes at
most `2^d` lookups. (The embedding of the routine is a total function: it ends on every
input.) -/
theorem calcBandWidth_scan_bounds (MachinePrec : ℚ) (T : CornerOperatorTree) (prec : ℚ)
    (h30 : T.getDepth ≤ 30) (d : Nat) (hd : d < T.getDepth) :
    (calcBandWidthRun MachinePrec T prec).bandWidth.getWidth d 0 = 2 ^ d - 1 ∧
    (∀ w : Int, Event.setWidth d 0 w ∈ (calcBandWidthRun MachinePrec T prec).trace ↔
      w = 2 ^ d - 1) ∧
    (∀ l : Int, Event.lookup d l ∈ (calcBandWidthRun MachinePrec T prec).trace →
      0 ≤ l ∧ l ≤ 2 ^ d - 1) ∧
    (∀ (k : Nat) (w : Int), k ≠ 0 →
      Event.setWidth d k w ∈ (calcBandWidthRun MachinePrec T prec).trace →
      0 ≤ w ∧ w ≤ 2 ^ d - 1) ∧
    (lookupsAt d (calcBandWidthRun MachinePrec T prec).trace).length ≤ 2 ^ d := by
  have hd30 : d ≤ 30 := by omega
  have hL := maxTransl_of_le d hd30
  simp only [calcBandWidthRun_eq, BandWidth.getWidth]
  refine ⟨?_, ?_, ?_, ?_, ?_⟩
  · rw [scanDepths_widths_zero _ _ _ _ hd, hL]
  · intro w
    rw [mem_trace_setWidth_zero, hL]
    exact ⟨fun h => h.2, fun h => ⟨hd, h⟩⟩
  · intro l hl
    exact levelVisits_mem_bounds T _ d hd30 l ((mem_trace_lookup _ _ _ _ _).mp hl).2
  · intro k w hk hw
    have hk' : k = 1 ∨ k = 2 ∨ k = 3 := by
      rcases mem_trace_setWidth_index _ _ _ _ _ _ hw with h | h
      · exact absurd h hk
      · exact h
    exact levelVisits_mem_bounds T _ d hd30 w
      ((mem_trace_setWidth _ _ _ _ _ _ hk').mp hw).2.1
  · rw [lookupsAt_scanDepths, if_pos hd]
    exact levelVisits_length T _ d hd30

/-- Witness of C10 on the sample tree with precision 1 at depth 1. -/
theorem calcBandWidth_scan_bounds_witness :
    sampleTree.getDepth ≤ 30 ∧ 1 < sampleTree.getDepth ∧
    ((calcBandWidthRun sampleMachinePrec sampleTree 1).bandWidth.getWidth 1 0 = 2 ^ 1 - 1 ∧
    (∀ w : Int, Event.setWidth 1 0 w ∈ (calcBandWidthRun sampleMachinePrec sampleTree 1).trace ↔
      w = 2 ^ 1 - 1) ∧
    (∀ l : Int, Event.lookup 1 l ∈ (calcBandWidthRun sampleMachinePrec sampleTree 1).trace →
      0 ≤ l ∧ l ≤ 2 ^ 1 - 1) ∧
    (∀ (k : Nat) (w : Int), k ≠ 0 →
      Event.setWidth 1 k w ∈ (calcBandWidthRun sampleMachinePrec sampleTree 1).trace →
      0 ≤ w ∧ w ≤ 2 ^ 1 - 1) ∧
    (lookupsAt 1 (calcBandWidthRun sampleMachinePrec sampleTree 1).trace).length ≤ 2 ^ 1) :=
  ⟨by decide, by decide,
    calcBandWidth_scan_bounds sampleMachinePrec sampleTree 1 (by decide) 1 (by decide)⟩

/-! ## The complex operator application -/

theorem complexApply_calls_out {MRA Tree Oper : Type} (ops : RealOps MRA Tree Oper)
    (prec : ℚ) (out : ComplexObject Tree) (oper : ComplexObject Oper)
    (inp : ComplexObject Tree) (maxIter : Int) (absPrec : Bool) :
    (complexApply ops prec out oper inp maxIter absPrec).calls.map (fun c => c.out) =
      [ops.newTree (ops.getMRA inp.real), ops.newTree (ops.getMRA inp.real),
        ops.apply prec (ops.newTree (ops.getMRA inp.real)) oper.real inp.real maxIter absPrec,
        ops.apply prec (ops.newTree (ops.getMRA inp.real)) oper.imaginary inp.imaginary
          maxIter absPrec] := rfl

/-- C9 fails on the code: with the list instance of the given operations, operator
`(2, 3)`, input `([1], [1])` and empty output trees, the four real applies receive the
output trees `[]`, `[]`, `[2]`, `[3]`. The third and the fourth call get the temporaries
as the first and the second call left them, not empty trees. -/
theorem complexApply_reuses_temporaries :
    (complexApply listOps (1 / 1000) ⟨[], []⟩ ⟨2, 3⟩ ⟨[1], [1]⟩ (-1) false).calls.map
      (fun c => c.out) = [[], [], [2], [3]] ∧
    ¬ (∀ c ∈ (complexApply listOps (1 / 1000) ⟨[], []⟩ ⟨2, 3⟩ ⟨[1], [1]⟩ (-1) false).calls,
      c.out = listOps.newTree ()) := by
  have h : (complexApply listOps (1 / 1000) ⟨[], []⟩ ⟨2, 3⟩ ⟨[1], [1]⟩ (-1) false).calls.map
      (fun c => c.out) = [[], [], [2], [3]] := by
    rw [complexApply_calls_out]
    simp [listOps]
  refine ⟨h, ?_⟩
  intro hall
  have h3 : ([2] : List ℚ) ∈
      (complexApply listOps (1 / 1000) ⟨[], []⟩ ⟨2, 3⟩ ⟨[1], [1]⟩ (-1) false).calls.map
        (fun c => c.out) := by
    rw [h]; simp
  obtain ⟨c, hc, hco⟩ := List.mem_map.mp h3
  have := hall c hc
  rw [hco] at this
  simp [listOps] at this

end MRCPP
